import Mathlib

/-!
Verification development for the de-uplc debugger core: a shallow embedding
of the serializer, lazy projector, path navigator and session controller
(src/serializer.rs, src/value.rs, src/context.rs, src/lazy_loading.rs,
src/machine_state.rs, src/debugger_engine/session_controller.rs,
src/debugger_engine/lazy_session_api.rs), together with theorems about the
encoding, projection, navigation and session-bookkeeping behaviour.

External collaborators (the uplc ManualMachine, the blst curve library,
serde_json decoding of path strings) are modelled at their interface:
machine construction/stepping and JSON-array decoding are taken as explicit
function parameters, and a blst group element is modelled by the byte
sequence its FFI serialization routine writes into the fixed-size buffer
the Rust code allocates.
-/

set_option maxHeartbeats 1000000

namespace DeUplc

/-- Rust cast of a usize value to i32 (two's-complement wraparound), as done
by the pervasive pattern that reads a term's uniq_id as i32. -/
def i32ofUsize (n : Nat) : Int :=
  let m : Nat := n % 2 ^ 32
  if m < 2 ^ 31 then (m : Int) else (m : Int) - 2 ^ 32

/-- Path segment for navigation (lazy_loading.rs, PathSegment). -/
inductive PathSegment where
  | Field (name : String)
  | Index (idx : Nat)
deriving DecidableEq, Repr

/-- Configuration for lazy loading (lazy_loading.rs, LazyLoadConfig). -/
structure LazyLoadConfig where
  path : List PathSegment
  return_full_object : Bool
deriving DecidableEq, Repr

/-- Result of a navigation operation (lazy_loading.rs, NavigationResult). -/
inductive NavigationResult (T : Type) where
  | Found (value : T)
  | InvalidPath (reason : String)
  | Incomplete
deriving DecidableEq, Repr

/-- True exactly on the InvalidPath constructor. -/
def NavigationResult.isInvalidPath {T : Type} : NavigationResult T → Bool
  | .InvalidPath _ => true
  | _ => false

/-- True exactly on the Found constructor. -/
def NavigationResult.isFound {T : Type} : NavigationResult T → Bool
  | .Found _ => true
  | _ => false

/-- Debug rendering of a path segment, modelling the derived Debug output the
Rust code interpolates into error messages. -/
def PathSegment.debugStr : PathSegment → String
  | .Field s => "Field(" ++ s ++ ")"
  | .Index i => "Index(" ++ toString i ++ ")"

/-- Debug rendering of a path, modelling the derived Debug output for
a slice of PathSegment as interpolated into error messages. -/
def pathDebug (path : List PathSegment) : String :=
  "[" ++ String.intercalate ", " (path.map PathSegment.debugStr) ++ "]"

/- ===== The uplc-side data model (the input of the serializers) ===== -/

/-- Identity and arity of a uplc builtin function (uplc DefaultFunction),
kept abstract through its Debug name, its Display name and its arity. -/
structure DefaultFunction where
  debugName : String
  displayName : String
  arity : Nat
deriving DecidableEq, Repr

/-- Serialized byte image of a blst G1 point: the bytes the blst FFI routine
writes. The fixed-size output buffers are modelled by fixBuffer below. -/
structure BlstP1 where
  bytes : List Nat
deriving DecidableEq, Repr

/-- Serialized byte image of a blst G2 point. -/
structure BlstP2 where
  bytes : List Nat
deriving DecidableEq, Repr

/-- Serialized byte image of a blst Fp12 (Miller-loop result) element. -/
structure BlstFp12 where
  bytes : List Nat
deriving DecidableEq, Repr

/-- Content of a pallas PlutusData value; its internal structure is not
inspected by any claim, so it is kept as an abstract payload. -/
inductive PallasPlutusData where
  | payload (n : Nat)
deriving DecidableEq, Repr

/-- Type of a uplc constant (uplc ast Type). -/
inductive UplcType where
  | Bool
  | Integer
  | String
  | ByteString
  | Unit
  | List (element_type : UplcType)
  | Pair (first_type second_type : UplcType)
  | Data
  | Bls12_381G1Element
  | Bls12_381G2Element
  | Bls12_381MlResult
deriving DecidableEq, Repr

/-- Constant of the uplc AST (uplc ast Constant). -/
inductive UplcConstant where
  | Integer (value : Int)
  | ByteString (value : List Nat)
  | Str (value : String)
  | Bool (value : Bool)
  | Unit
  | ProtoList (element_type : UplcType) (values : List UplcConstant)
  | ProtoPair (first_type second_type : UplcType)
      (first_element second_element : UplcConstant)
  | Data (data : PallasPlutusData)
  | Bls12_381G1Element (element : BlstP1)
  | Bls12_381G2Element (element : BlstP2)
  | Bls12_381MlResult (element : BlstFp12)
deriving Repr

/-- Term of the uplc AST (uplc ast Term with NamedDeBruijn names); every
node carries the process-unique uniq_id assigned at parse time. -/
inductive UplcTerm where
  | Var (name : String) (uniq_id : Nat)
  | Delay (body : UplcTerm) (uniq_id : Nat)
  | Lambda (parameter_name : String) (body : UplcTerm) (uniq_id : Nat)
  | Apply (function argument : UplcTerm) (uniq_id : Nat)
  | Constant (value : UplcConstant) (uniq_id : Nat)
  | Force (body : UplcTerm) (uniq_id : Nat)
  | Error (uniq_id : Nat)
  | Builtin (fn : DefaultFunction) (uniq_id : Nat)
  | Constr (tag : Nat) (fields : List UplcTerm) (uniq_id : Nat)
  | Case (constr : UplcTerm) (branches : List UplcTerm) (uniq_id : Nat)
deriving Repr

/-- Reading of the uniq_id field shared by all ten Term variants, as done by
the or-patterns in the Rust sources. -/
def UplcTerm.uniqId : UplcTerm → Nat
  | .Var _ u => u
  | .Delay _ u => u
  | .Lambda _ _ u => u
  | .Apply _ _ u => u
  | .Constant _ u => u
  | .Force _ u => u
  | .Error u => u
  | .Builtin _ u => u
  | .Constr _ _ u => u
  | .Case _ _ u => u

mutual
/-- Runtime value of the uplc machine (uplc machine value Value).
Environments are ordered lists of values. -/
inductive UplcValue where
  | Con (constant : UplcConstant)
  | Delay (body : UplcTerm) (env : List UplcValue) (term_id : Nat)
  | Lambda (parameter_name : String) (body : UplcTerm) (env : List UplcValue)
      (term_id : Nat)
  | Builtin (fn : DefaultFunction) (runtime : UplcBuiltinRuntime) (term_id : Nat)
  | Constr (tag : Nat) (fields : List UplcValue) (term_id : Nat)

/-- Partial builtin application (uplc machine runtime BuiltinRuntime). -/
inductive UplcBuiltinRuntime where
  | mk (args : List UplcValue) (fn : DefaultFunction) (forces : Nat)
end

/-- Accumulated argument list of a builtin runtime. -/
def UplcBuiltinRuntime.args : UplcBuiltinRuntime → List UplcValue
  | .mk a _ _ => a

/-- Builtin function of a builtin runtime. -/
def UplcBuiltinRuntime.fn : UplcBuiltinRuntime → DefaultFunction
  | .mk _ f _ => f

/-- Forces count of a builtin runtime. -/
def UplcBuiltinRuntime.forces : UplcBuiltinRuntime → Nat
  | .mk _ _ f => f

/-- One continuation-stack frame (uplc machine Context). The serializers
read only the head frame of each node (the linked continuation is dropped
by the Rust patterns), so the link is elided here. -/
inductive UplcContext where
  | FrameAwaitArg (value : UplcValue)
  | FrameAwaitFunTerm (env : List UplcValue) (term : UplcTerm)
  | FrameAwaitFunValue (value : UplcValue)
  | FrameForce
  | FrameConstr (env : List UplcValue) (tag : Nat) (terms : List UplcTerm)
      (values : List UplcValue) (term_id : Nat)
  | FrameCases (env : List UplcValue) (terms : List UplcTerm)
  | NoFrame

/-- Machine state of the uplc machine (uplc machine MachineState). -/
inductive UplcMachineState where
  | Compute (context : UplcContext) (env : List UplcValue) (term : UplcTerm)
  | Return (context : UplcContext) (value : UplcValue)
  | Done (term : UplcTerm)

/- ===== Fixed-size buffers and hex encoding ===== -/

/-- Content of a Rust [0u8; n] buffer after an FFI write of the given bytes:
the written bytes truncated or zero-padded to exactly n bytes, so the
buffer length is always n. -/
def fixBuffer (n : Nat) (written : List Nat) : List Nat :=
  written.take n ++ List.replicate (n - (written.take n).length) 0

/-- Single lowercase hex digit. -/
def hexDigit (n : Nat) : Char :=
  if n < 10 then Char.ofNat (48 + n) else Char.ofNat (87 + n)

/-- Lowercase hex encoding of a byte list (the hex crate's encode). -/
def hexEncode (bs : List Nat) : String :=
  String.mk (bs.foldr (fun b acc => hexDigit (b / 16 % 16) :: hexDigit (b % 16) :: acc) [])

theorem fixBuffer_length (n : Nat) (written : List Nat) :
    (fixBuffer n written).length = n := by
  simp [fixBuffer]

theorem hexEncode_length (bs : List Nat) :
    (hexEncode bs).length = 2 * bs.length := by
  induction bs with
  | nil => rfl
  | cons b bs ih =>
    simp [hexEncode, String.length] at ih ⊢
    omega

/- ===== BLS serialization routines (serializer.rs, lines 321-368) ===== -/

/-- Uncompressed G1 serialization size constant (serializer.rs). -/
def BLS12_381_G1_SERIALIZED_SIZE : Nat := 96

/-- Uncompressed G2 serialization size constant (serializer.rs). -/
def BLS12_381_G2_SERIALIZED_SIZE : Nat := 192

/-- Fp12 serialization size constant (serializer.rs). -/
def BLS12_381_FP12_SIZE : Nat := 576

/-- Compressed G1 serialization size constant (serializer.rs). -/
def BLS12_381_G1_COMPRESSED_SIZE : Nat := 48

/-- Compressed G2 serialization size constant (serializer.rs). -/
def BLS12_381_G2_COMPRESSED_SIZE : Nat := 96

/-- Full (uncompressed) G1 serialization: blst_p1_serialize into a 96-byte
buffer, then hex encoding. -/
def serialize_bls_g1_element_full (element : BlstP1) : String :=
  hexEncode (fixBuffer BLS12_381_G1_SERIALIZED_SIZE element.bytes)

/-- Full (uncompressed) G2 serialization: blst_p2_serialize into a 192-byte
buffer, then hex encoding. -/
def serialize_bls_g2_element_full (element : BlstP2) : String :=
  hexEncode (fixBuffer BLS12_381_G2_SERIALIZED_SIZE element.bytes)

/-- Fp12 serialization: blst_bendian_from_fp12 into a 576-byte buffer, then
hex encoding. -/
def serialize_bls_fp12_element (element : BlstFp12) : String :=
  hexEncode (fixBuffer BLS12_381_FP12_SIZE element.bytes)

/-- Compressed G1 serialization: blst_p1_compress into a 48-byte buffer,
then hex encoding. -/
def serialize_bls_g1_element_compressed (element : BlstP1) : String :=
  hexEncode (fixBuffer BLS12_381_G1_COMPRESSED_SIZE element.bytes)

/-- Compressed G2 serialization: blst_p2_compress into a 96-byte buffer,
then hex encoding. -/
def serialize_bls_g2_element_compressed (element : BlstP2) : String :=
  hexEncode (fixBuffer BLS12_381_G2_COMPRESSED_SIZE element.bytes)

/- ===== Plain (non-lazy) wire shapes (serializer.rs, value.rs, context.rs,
machine_state.rs) ===== -/

/-- Wire shape of a constant type tag (serializer.rs, SerializableType). -/
inductive SerializableType where
  | Bool
  | Integer
  | String
  | ByteString
  | Unit
  | List (element_type : SerializableType)
  | Pair (first_type second_type : SerializableType)
  | Data
  | Bls12_381G1Element
  | Bls12_381G2Element
  | Bls12_381MlResult
deriving DecidableEq, Repr

/-- Wire shape of plutus data (plutus_data.rs, SerializablePlutusData); the
claims never inspect its payload, so the pallas conversion is kept as a
tagged wrapper of the abstract pallas payload. -/
inductive SerializablePlutusData where
  | fromPallas (d : PallasPlutusData)
deriving DecidableEq, Repr

/-- Wire shape of a constant (serializer.rs, SerializableConstant). -/
inductive SerializableConstant where
  | Integer (value : String)
  | ByteString (value : String)
  | Str (value : String)
  | Bool (value : Bool)
  | Unit
  | ProtoList (element_type : SerializableType) (values : List SerializableConstant)
  | ProtoPair (first_type second_type : SerializableType)
      (first_element second_element : SerializableConstant)
  | Data (data : SerializablePlutusData)
  | Bls12_381G1Element (serialized : String)
  | Bls12_381G2Element (serialized : String)
  | Bls12_381MlResult (bytes : String)
deriving Repr

/-- Wire shape of a term (serializer.rs, SerializableTerm). -/
inductive SerializableTerm where
  | Var (id : Int) (name : String)
  | Delay (id : Int) (term : SerializableTerm)
  | Lambda (id : Int) (parameter_name : String) (body : SerializableTerm)
  | Apply (id : Int) (function argument : SerializableTerm)
  | Constant (id : Int) (constant : SerializableConstant)
  | Force (id : Int) (term : SerializableTerm)
  | Error (id : Int)
  | Builtin (id : Int) (fn : String)
  | Constr (id : Int) (constructor_tag : Nat) (fields : List SerializableTerm)
  | Case (id : Int) (constr : SerializableTerm) (branches : List SerializableTerm)
deriving Repr

/-- Static-reference-or-inline-term wire shape (serializer.rs,
EitherTermOrId). -/
inductive EitherTermOrId where
  | Term (term : SerializableTerm)
  | Id (id : Int)
deriving Repr

/-- Mapping of a uplc type to its wire shape (serializer.rs,
SerializableType::from_uplc_type). -/
def SerializableType.from_uplc_type : UplcType → SerializableType
  | .Bool => .Bool
  | .Integer => .Integer
  | .String => .String
  | .ByteString => .ByteString
  | .Unit => .Unit
  | .List t => .List (from_uplc_type t)
  | .Pair a b => .Pair (from_uplc_type a) (from_uplc_type b)
  | .Data => .Data
  | .Bls12_381G1Element => .Bls12_381G1Element
  | .Bls12_381G2Element => .Bls12_381G2Element
  | .Bls12_381MlResult => .Bls12_381MlResult

/-- Conversion of a pallas PlutusData value to its wire shape
(plutus_data.rs, SerializablePlutusData::from_pallas). -/
def SerializablePlutusData.from_pallas (d : PallasPlutusData) : SerializablePlutusData :=
  .fromPallas d

mutual
/-- Conversion of a uplc constant to its wire shape (serializer.rs,
SerializableConstant::from_uplc_constant). -/
def SerializableConstant.from_uplc_constant : UplcConstant → SerializableConstant
  | .Integer i => .Integer (toString i)
  | .ByteString bytes => .ByteString (hexEncode bytes)
  | .Str s => .Str s
  | .Bool b => .Bool b
  | .Unit => .Unit
  | .ProtoList element_type values =>
      .ProtoList (SerializableType.from_uplc_type element_type)
        (from_uplc_constant_list values)
  | .ProtoPair first_type second_type first_element second_element =>
      .ProtoPair (SerializableType.from_uplc_type first_type)
        (SerializableType.from_uplc_type second_type)
        (SerializableConstant.from_uplc_constant first_element)
        (SerializableConstant.from_uplc_constant second_element)
  | .Data data => .Data (SerializablePlutusData.from_pallas data)
  | .Bls12_381G1Element element =>
      .Bls12_381G1Element (serialize_bls_g1_element_full element)
  | .Bls12_381G2Element element =>
      .Bls12_381G2Element (serialize_bls_g2_element_full element)
  | .Bls12_381MlResult result =>
      .Bls12_381MlResult (serialize_bls_fp12_element result)

/-- Elementwise conversion of a constant list (the iterator map in the
ProtoList branch of from_uplc_constant). -/
def from_uplc_constant_list : List UplcConstant → List SerializableConstant
  | [] => []
  | c :: cs => SerializableConstant.from_uplc_constant c :: from_uplc_constant_list cs
end

mutual
/-- Conversion of a uplc term to its wire shape (serializer.rs,
SerializableTerm::from_uplc_term). -/
def SerializableTerm.from_uplc_term : UplcTerm → SerializableTerm
  | .Var name u => .Var (i32ofUsize u) name
  | .Delay body u => .Delay (i32ofUsize u) (SerializableTerm.from_uplc_term body)
  | .Lambda parameter_name body u =>
      .Lambda (i32ofUsize u) parameter_name (SerializableTerm.from_uplc_term body)
  | .Apply function argument u =>
      .Apply (i32ofUsize u) (SerializableTerm.from_uplc_term function) (SerializableTerm.from_uplc_term argument)
  | .Constant value u =>
      .Constant (i32ofUsize u) (SerializableConstant.from_uplc_constant value)
  | .Force body u => .Force (i32ofUsize u) (SerializableTerm.from_uplc_term body)
  | .Error u => .Error (i32ofUsize u)
  | .Builtin fn u => .Builtin (i32ofUsize u) fn.debugName
  | .Constr tag fields u =>
      .Constr (i32ofUsize u) tag (from_uplc_term_elems fields)
  | .Case constr branches u =>
      .Case (i32ofUsize u) (SerializableTerm.from_uplc_term constr) (from_uplc_term_elems branches)

/-- Elementwise conversion of a term list (the iterator maps in the Constr
and Case branches of from_uplc_term). -/
def from_uplc_term_elems : List UplcTerm → List SerializableTerm
  | [] => []
  | t :: ts => SerializableTerm.from_uplc_term t :: from_uplc_term_elems ts
end

/-- Static-id short-circuit for a term reference (serializer.rs,
term_to_either_term_or_id): a reference token when the term's id is in the
static-id set, an inline encoding otherwise. -/
def term_to_either_term_or_id (term : UplcTerm) (term_ids : Finset Int) :
    EitherTermOrId :=
  let term_id := i32ofUsize term.uniqId
  if term_id ∈ term_ids then .Id term_id
  else .Term (SerializableTerm.from_uplc_term term)

/- ===== Plain value / environment / runtime wire shapes (value.rs) ===== -/

mutual
/-- Wire shape of a runtime value (value.rs, SerializableValue). -/
inductive SerializableValue where
  | Con (constant : SerializableConstant)
  | Delay (body : EitherTermOrId) (env : SerializableEnv) (term_id : Int)
  | Lambda (parameter_name : String) (body : EitherTermOrId)
      (env : SerializableEnv) (term_id : Int)
  | Builtin (fn : String) (runtime : SerializableBuiltinRuntime) (term_id : Int)
  | Constr (tag : Nat) (fields : List SerializableValue) (term_id : Int)

/-- Wire shape of an environment (value.rs, SerializableEnv). -/
inductive SerializableEnv where
  | mk (values : List SerializableValue)

/-- Wire shape of a builtin runtime (value.rs, SerializableBuiltinRuntime). -/
inductive SerializableBuiltinRuntime where
  | mk (args : List SerializableValue) (fn : String) (forces : Nat) (arity : Nat)
end

/-- Values list of a serializable environment. -/
def SerializableEnv.values : SerializableEnv → List SerializableValue
  | .mk vs => vs

/-- Uppercasing of the first character of a string, as done on the Display
name of the builtin function in from_uplc_runtime. -/
def capitalizeFirst (s : String) : String :=
  match s.data with
  | [] => s
  | c :: cs => String.mk (c.toUpper :: cs)

mutual
/-- Conversion of a uplc runtime value to its wire shape with the static-id
optimization (value.rs, SerializableValue::from_uplc_value_with_ids). -/
def SerializableValue.from_uplc_value_with_ids (term_ids : Finset Int) :
    UplcValue → SerializableValue
  | .Con constant => .Con (SerializableConstant.from_uplc_constant constant)
  | .Delay body env term_id =>
      .Delay (term_to_either_term_or_id body term_ids)
        (.mk (from_uplc_value_elems term_ids env)) (i32ofUsize term_id)
  | .Lambda parameter_name body env term_id =>
      .Lambda parameter_name (term_to_either_term_or_id body term_ids)
        (.mk (from_uplc_value_elems term_ids env)) (i32ofUsize term_id)
  | .Builtin fn runtime term_id =>
      .Builtin fn.debugName (SerializableBuiltinRuntime.from_uplc_runtime runtime)
        (i32ofUsize term_id)
  | .Constr tag fields term_id =>
      .Constr tag (from_uplc_value_elems term_ids fields) (i32ofUsize term_id)

/-- Elementwise conversion of a value list (the iterator maps over
environments and constructor fields in value.rs). -/
def from_uplc_value_elems (term_ids : Finset Int) :
    List UplcValue → List SerializableValue
  | [] => []
  | v :: vs =>
      SerializableValue.from_uplc_value_with_ids term_ids v ::
        from_uplc_value_elems term_ids vs

/-- Conversion of a builtin runtime to its wire shape (value.rs,
SerializableBuiltinRuntime::from_uplc_runtime). Its args are converted with
an empty id set (the Rust code calls from_uplc_value, which uses
HashSet::new()), and the Display name gets its first character uppercased. -/
def SerializableBuiltinRuntime.from_uplc_runtime :
    UplcBuiltinRuntime → SerializableBuiltinRuntime
  | .mk args fn forces =>
      .mk (from_uplc_value_elems (∅ : Finset Int) args)
        (capitalizeFirst fn.displayName) forces fn.arity
end

/-- Conversion of an environment with the static-id optimization (value.rs,
SerializableEnv::from_uplc_env_with_ids). -/
def SerializableEnv.from_uplc_env_with_ids (env : List UplcValue)
    (term_ids : Finset Int) : SerializableEnv :=
  .mk (from_uplc_value_elems term_ids env)

/- ===== Plain context and machine-state wire shapes (context.rs,
machine_state.rs) ===== -/

/-- Wire shape of a continuation frame (context.rs,
SerializableMachineContext). -/
inductive SerializableMachineContext where
  | FrameAwaitArg (value : SerializableValue)
  | FrameAwaitFunTerm (env : SerializableEnv) (term : EitherTermOrId)
  | FrameAwaitFunValue (value : SerializableValue)
  | FrameForce
  | FrameConstr (env : SerializableEnv) (tag : Nat) (terms : List EitherTermOrId)
      (values : List SerializableValue) (term_id : Int)
  | FrameCases (env : SerializableEnv) (terms : List EitherTermOrId)
  | NoFrame

/-- Conversion of a continuation frame to its wire shape (context.rs,
SerializableMachineContext::from_uplc_context_with_ids). -/
def SerializableMachineContext.from_uplc_context_with_ids
    (context : UplcContext) (term_ids : Finset Int) :
    SerializableMachineContext :=
  match context with
  | .FrameAwaitArg value =>
      .FrameAwaitArg (SerializableValue.from_uplc_value_with_ids term_ids value)
  | .FrameAwaitFunTerm env term =>
      .FrameAwaitFunTerm (SerializableEnv.from_uplc_env_with_ids env term_ids)
        (term_to_either_term_or_id term term_ids)
  | .FrameAwaitFunValue value =>
      .FrameAwaitFunValue (SerializableValue.from_uplc_value_with_ids term_ids value)
  | .FrameForce => .FrameForce
  | .FrameConstr env tag terms values term_id =>
      .FrameConstr (SerializableEnv.from_uplc_env_with_ids env term_ids) tag
        (terms.map (fun term => term_to_either_term_or_id term term_ids))
        (values.map (fun value => SerializableValue.from_uplc_value_with_ids term_ids value))
        (i32ofUsize term_id)
  | .FrameCases env terms =>
      .FrameCases (SerializableEnv.from_uplc_env_with_ids env term_ids)
        (terms.map (fun term => term_to_either_term_or_id term term_ids))
  | .NoFrame => .NoFrame

/-- Wire shape of a machine state (machine_state.rs,
SerializableMachineState). -/
inductive SerializableMachineState where
  | Return (context : SerializableMachineContext) (value : SerializableValue)
  | Compute (context : SerializableMachineContext) (env : SerializableEnv)
      (term : EitherTermOrId)
  | Done (term : EitherTermOrId)

/-- Conversion of a machine state to its wire shape (machine_state.rs,
SerializableMachineState::from_uplc_machine_state_with_ids). -/
def SerializableMachineState.from_uplc_machine_state_with_ids
    (state : UplcMachineState) (term_ids : Finset Int) :
    SerializableMachineState :=
  match state with
  | .Return context value =>
      .Return (SerializableMachineContext.from_uplc_context_with_ids context term_ids)
        (SerializableValue.from_uplc_value_with_ids term_ids value)
  | .Compute context env term =>
      .Compute (SerializableMachineContext.from_uplc_context_with_ids context term_ids)
        (SerializableEnv.from_uplc_env_with_ids env term_ids)
        (term_to_either_term_or_id term term_ids)
  | .Done term => .Done (term_to_either_term_or_id term term_ids)

/- ===== Identity registry (session_controller.rs, collect_term_ids) ===== -/

mutual
/-- Depth-first collection of every node id of a term into the accumulator
set (session_controller.rs, collect_term_ids): the current node's id is
inserted first, then the children are walked in order. -/
def collect_term_ids : UplcTerm → Finset Int → Finset Int
  | .Var _ u, acc => insert (i32ofUsize u) acc
  | .Delay body u, acc => collect_term_ids body (insert (i32ofUsize u) acc)
  | .Lambda _ body u, acc => collect_term_ids body (insert (i32ofUsize u) acc)
  | .Apply function argument u, acc =>
      collect_term_ids argument (collect_term_ids function (insert (i32ofUsize u) acc))
  | .Constant _ u, acc => insert (i32ofUsize u) acc
  | .Force body u, acc => collect_term_ids body (insert (i32ofUsize u) acc)
  | .Error u, acc => insert (i32ofUsize u) acc
  | .Builtin _ u, acc => insert (i32ofUsize u) acc
  | .Constr _ fields u, acc => collect_term_ids_elems fields (insert (i32ofUsize u) acc)
  | .Case constr branches u, acc =>
      collect_term_ids_elems branches (collect_term_ids constr (insert (i32ofUsize u) acc))

/-- Left-to-right collection over a list of child terms (the for loops of
collect_term_ids). -/
def collect_term_ids_elems : List UplcTerm → Finset Int → Finset Int
  | [], acc => acc
  | t :: ts, acc => collect_term_ids_elems ts (collect_term_ids t acc)
end

mutual
/-- Specification-side set of ids of all terms reachable from a term by
walking its child fields. -/
def reachableIds : UplcTerm → Finset Int
  | .Var _ u => {i32ofUsize u}
  | .Delay body u => insert (i32ofUsize u) (reachableIds body)
  | .Lambda _ body u => insert (i32ofUsize u) (reachableIds body)
  | .Apply function argument u =>
      insert (i32ofUsize u) (reachableIds function ∪ reachableIds argument)
  | .Constant _ u => {i32ofUsize u}
  | .Force body u => insert (i32ofUsize u) (reachableIds body)
  | .Error u => {i32ofUsize u}
  | .Builtin _ u => {i32ofUsize u}
  | .Constr _ fields u => insert (i32ofUsize u) (reachableIdsElems fields)
  | .Case constr branches u =>
      insert (i32ofUsize u) (reachableIds constr ∪ reachableIdsElems branches)

/-- Union of reachable ids over a list of child terms. -/
def reachableIdsElems : List UplcTerm → Finset Int
  | [] => ∅
  | t :: ts => reachableIds t ∪ reachableIdsElems ts
end

mutual
/-- Accumulator form of collect_term_ids is the union of the accumulator
with the reachable-id set of the term. -/
theorem collect_term_ids_eq (t : UplcTerm) (acc : Finset Int) :
    collect_term_ids t acc = acc ∪ reachableIds t := by
  have memtac : ∀ (s1 s2 : Finset Int), (∀ a : Int, a ∈ s1 ↔ a ∈ s2) → s1 = s2 :=
    fun s1 s2 h => Finset.ext h
  match t with
  | .Var n u =>
    apply memtac
    intro a
    simp only [collect_term_ids, reachableIds, Finset.mem_insert,
      Finset.mem_singleton, Finset.mem_union]
    tauto
  | .Delay body u =>
    have ih := collect_term_ids_eq body (insert (i32ofUsize u) acc)
    simp only [collect_term_ids, reachableIds]
    rw [ih]
    apply memtac
    intro a
    simp only [Finset.mem_insert, Finset.mem_union]
    tauto
  | .Lambda n body u =>
    have ih := collect_term_ids_eq body (insert (i32ofUsize u) acc)
    simp only [collect_term_ids, reachableIds]
    rw [ih]
    apply memtac
    intro a
    simp only [Finset.mem_insert, Finset.mem_union]
    tauto
  | .Apply f arg u =>
    have ih1 := collect_term_ids_eq f (insert (i32ofUsize u) acc)
    have ih2 := collect_term_ids_eq arg (collect_term_ids f (insert (i32ofUsize u) acc))
    simp only [collect_term_ids, reachableIds]
    rw [ih2, ih1]
    apply memtac
    intro a
    simp only [Finset.mem_insert, Finset.mem_union]
    tauto
  | .Constant v u =>
    apply memtac
    intro a
    simp only [collect_term_ids, reachableIds, Finset.mem_insert,
      Finset.mem_singleton, Finset.mem_union]
    tauto
  | .Force body u =>
    have ih := collect_term_ids_eq body (insert (i32ofUsize u) acc)
    simp only [collect_term_ids, reachableIds]
    rw [ih]
    apply memtac
    intro a
    simp only [Finset.mem_insert, Finset.mem_union]
    tauto
  | .Error u =>
    apply memtac
    intro a
    simp only [collect_term_ids, reachableIds, Finset.mem_insert,
      Finset.mem_singleton, Finset.mem_union]
    tauto
  | .Builtin fn u =>
    apply memtac
    intro a
    simp only [collect_term_ids, reachableIds, Finset.mem_insert,
      Finset.mem_singleton, Finset.mem_union]
    tauto
  | .Constr tag fields u =>
    have ih := collect_term_ids_elems_eq fields (insert (i32ofUsize u) acc)
    simp only [collect_term_ids, reachableIds]
    rw [ih]
    apply memtac
    intro a
    simp only [Finset.mem_insert, Finset.mem_union]
    tauto
  | .Case c branches u =>
    have ih1 := collect_term_ids_eq c (insert (i32ofUsize u) acc)
    have ih2 := collect_term_ids_elems_eq branches
      (collect_term_ids c (insert (i32ofUsize u) acc))
    simp only [collect_term_ids, reachableIds]
    rw [ih2, ih1]
    apply memtac
    intro a
    simp only [Finset.mem_insert, Finset.mem_union]
    tauto

/-- Accumulator form of collect_term_ids_elems is the union of the
accumulator with the reachable-id sets of the list elements. -/
theorem collect_term_ids_elems_eq (ts : List UplcTerm) (acc : Finset Int) :
    collect_term_ids_elems ts acc = acc ∪ reachableIdsElems ts := by
  have memtac : ∀ (s1 s2 : Finset Int), (∀ a : Int, a ∈ s1 ↔ a ∈ s2) → s1 = s2 :=
    fun s1 s2 h => Finset.ext h
  match ts with
  | [] =>
    simp [collect_term_ids_elems, reachableIdsElems]
  | t :: rest =>
    have ih1 := collect_term_ids_eq t acc
    have ih2 := collect_term_ids_elems_eq rest (collect_term_ids t acc)
    simp only [collect_term_ids_elems, reachableIdsElems]
    rw [ih2, ih1]
    apply memtac
    intro a
    simp only [Finset.mem_insert, Finset.mem_union]
    tauto
end

/-- Reflexive-transitive reachability by walking a term's child fields:
Delay/Lambda/Force bodies, Apply function and argument, Constr fields, Case
scrutinee and branches. -/
inductive Subterm : UplcTerm → UplcTerm → Prop where
  | refl (t : UplcTerm) : Subterm t t
  | delay {s body : UplcTerm} {u : Nat} :
      Subterm s body → Subterm s (.Delay body u)
  | lambda {s body : UplcTerm} {n : String} {u : Nat} :
      Subterm s body → Subterm s (.Lambda n body u)
  | applyFn {s f a : UplcTerm} {u : Nat} :
      Subterm s f → Subterm s (.Apply f a u)
  | applyArg {s f a : UplcTerm} {u : Nat} :
      Subterm s a → Subterm s (.Apply f a u)
  | force {s body : UplcTerm} {u : Nat} :
      Subterm s body → Subterm s (.Force body u)
  | constrField {s t : UplcTerm} {fields : List UplcTerm} {tag u : Nat} :
      t ∈ fields → Subterm s t → Subterm s (.Constr tag fields u)
  | caseScrut {s c : UplcTerm} {branches : List UplcTerm} {u : Nat} :
      Subterm s c → Subterm s (.Case c branches u)
  | caseBranch {s t c : UplcTerm} {branches : List UplcTerm} {u : Nat} :
      t ∈ branches → Subterm s t → Subterm s (.Case c branches u)

mutual
/-- Membership in reachableIds is exactly being the id of a reachable
subterm. -/
theorem mem_reachableIds_iff (t : UplcTerm) (i : Int) :
    i ∈ reachableIds t ↔ ∃ s : UplcTerm, Subterm s t ∧ i32ofUsize s.uniqId = i := by
  match t with
  | .Var n u =>
    simp only [reachableIds, Finset.mem_singleton]
    constructor
    · intro h
      exact ⟨.Var n u, .refl _, h.symm⟩
    · rintro ⟨s, hs, hid⟩
      cases hs
      exact hid.symm
  | .Delay body u =>
    have ih := mem_reachableIds_iff body i
    simp only [reachableIds, Finset.mem_insert, ih]
    constructor
    · rintro (h | ⟨s, hs, hid⟩)
      · exact ⟨.Delay body u, .refl _, h.symm⟩
      · exact ⟨s, .delay hs, hid⟩
    · rintro ⟨s, hs, hid⟩
      cases hs with
      | refl => exact Or.inl hid.symm
      | delay h => exact Or.inr ⟨s, h, hid⟩
  | .Lambda n body u =>
    have ih := mem_reachableIds_iff body i
    simp only [reachableIds, Finset.mem_insert, ih]
    constructor
    · rintro (h | ⟨s, hs, hid⟩)
      · exact ⟨.Lambda n body u, .refl _, h.symm⟩
      · exact ⟨s, .lambda hs, hid⟩
    · rintro ⟨s, hs, hid⟩
      cases hs with
      | refl => exact Or.inl hid.symm
      | lambda h => exact Or.inr ⟨s, h, hid⟩
  | .Apply f a u =>
    have ihf := mem_reachableIds_iff f i
    have iha := mem_reachableIds_iff a i
    simp only [reachableIds, Finset.mem_insert, Finset.mem_union, ihf, iha]
    constructor
    · rintro (h | ⟨s, hs, hid⟩ | ⟨s, hs, hid⟩)
      · exact ⟨.Apply f a u, .refl _, h.symm⟩
      · exact ⟨s, .applyFn hs, hid⟩
      · exact ⟨s, .applyArg hs, hid⟩
    · rintro ⟨s, hs, hid⟩
      cases hs with
      | refl => exact Or.inl hid.symm
      | applyFn h => exact Or.inr (Or.inl ⟨s, h, hid⟩)
      | applyArg h => exact Or.inr (Or.inr ⟨s, h, hid⟩)
  | .Constant v u =>
    simp only [reachableIds, Finset.mem_singleton]
    constructor
    · intro h
      exact ⟨.Constant v u, .refl _, h.symm⟩
    · rintro ⟨s, hs, hid⟩
      cases hs
      exact hid.symm
  | .Force body u =>
    have ih := mem_reachableIds_iff body i
    simp only [reachableIds, Finset.mem_insert, ih]
    constructor
    · rintro (h | ⟨s, hs, hid⟩)
      · exact ⟨.Force body u, .refl _, h.symm⟩
      · exact ⟨s, .force hs, hid⟩
    · rintro ⟨s, hs, hid⟩
      cases hs with
      | refl => exact Or.inl hid.symm
      | force h => exact Or.inr ⟨s, h, hid⟩
  | .Error u =>
    simp only [reachableIds, Finset.mem_singleton]
    constructor
    · intro h
      exact ⟨.Error u, .refl _, h.symm⟩
    · rintro ⟨s, hs, hid⟩
      cases hs
      exact hid.symm
  | .Builtin fn u =>
    simp only [reachableIds, Finset.mem_singleton]
    constructor
    · intro h
      exact ⟨.Builtin fn u, .refl _, h.symm⟩
    · rintro ⟨s, hs, hid⟩
      cases hs
      exact hid.symm
  | .Constr tag fields u =>
    have ih := mem_reachableIdsElems_iff fields i
    simp only [reachableIds, Finset.mem_insert, ih]
    constructor
    · rintro (h | ⟨t, ht, s, hs, hid⟩)
      · exact ⟨.Constr tag fields u, .refl _, h.symm⟩
      · exact ⟨s, .constrField ht hs, hid⟩
    · rintro ⟨s, hs, hid⟩
      cases hs with
      | refl => exact Or.inl hid.symm
      | constrField ht h => exact Or.inr ⟨_, ht, s, h, hid⟩
  | .Case c branches u =>
    have ihc := mem_reachableIds_iff c i
    have ihb := mem_reachableIdsElems_iff branches i
    simp only [reachableIds, Finset.mem_insert, Finset.mem_union, ihc, ihb]
    constructor
    · rintro (h | ⟨s, hs, hid⟩ | ⟨t, ht, s, hs, hid⟩)
      · exact ⟨.Case c branches u, .refl _, h.symm⟩
      · exact ⟨s, .caseScrut hs, hid⟩
      · exact ⟨s, .caseBranch ht hs, hid⟩
    · rintro ⟨s, hs, hid⟩
      cases hs with
      | refl => exact Or.inl hid.symm
      | caseScrut h => exact Or.inr (Or.inl ⟨s, h, hid⟩)
      | caseBranch ht h => exact Or.inr (Or.inr ⟨_, ht, s, h, hid⟩)

/-- Membership in reachableIdsElems is exactly being the id of a subterm of
some list element. -/
theorem mem_reachableIdsElems_iff (ts : List UplcTerm) (i : Int) :
    i ∈ reachableIdsElems ts ↔
      ∃ t ∈ ts, ∃ s : UplcTerm, Subterm s t ∧ i32ofUsize s.uniqId = i := by
  match ts with
  | [] => simp [reachableIdsElems]
  | t :: rest =>
    have ih1 := mem_reachableIds_iff t i
    have ih2 := mem_reachableIdsElems_iff rest i
    simp only [reachableIdsElems, Finset.mem_union, ih1, ih2, List.mem_cons]
    constructor
    · rintro (⟨s, hs, hid⟩ | ⟨t', ht', s, hs, hid⟩)
      · exact ⟨t, Or.inl rfl, s, hs, hid⟩
      · exact ⟨t', Or.inr ht', s, hs, hid⟩
    · rintro ⟨t', ht', s, hs, hid⟩
      cases ht' with
      | inl h => subst h; exact Or.inl ⟨s, hs, hid⟩
      | inr h => exact Or.inr ⟨t', h, s, hs, hid⟩
end

/- ===== Lazy wire shapes (lazy_loading.rs concrete enums together with the
partial shapes of serializer.rs, value.rs, context.rs) ===== -/

mutual
/-- Loaded-or-stub wrapper for a lazy constant (lazy_loading.rs,
LazyLoadableConstant). -/
inductive LazyLoadableConstant where
  | Loaded (c : SerializableConstantLazy)
  | TypeOnly (type_name kind : String) (length : Option Nat)

/-- Partial wire shape of a constant (serializer.rs,
SerializableConstantLazy). -/
inductive SerializableConstantLazy where
  | Integer (value : String)
  | ByteString (value : String)
  | Str (value : String)
  | Bool (value : Bool)
  | Unit
  | ProtoList (element_type : SerializableType) (values : List LazyLoadableConstant)
  | ProtoPair (first_type second_type : SerializableType)
      (first_element second_element : LazyLoadableConstant)
  | Data (data : LazyLoadableData)
  | Bls12_381G1Element (serialized : String)
  | Bls12_381G2Element (serialized : String)
  | Bls12_381MlResult (bytes : String)

/-- Loaded-or-stub wrapper for plutus data (lazy_loading.rs,
LazyLoadableData). -/
inductive LazyLoadableData where
  | Loaded (d : SerializablePlutusData)
  | TypeOnly (type_name kind : String) (length : Option Nat)
end

mutual
/-- Loaded-or-stub wrapper for a lazy term (lazy_loading.rs,
LazyLoadableTerm). -/
inductive LazyLoadableTerm where
  | Loaded (t : SerializableTermLazy)
  | TypeOnly (type_name kind : String) (length : Option Nat)

/-- Partial wire shape of a term (serializer.rs, SerializableTermLazy). -/
inductive SerializableTermLazy where
  | Var (id : Int) (name : String)
  | Delay (id : Int) (term : LazyLoadableTerm)
  | Lambda (id : Int) (parameter_name : String) (body : LazyLoadableTerm)
  | Apply (id : Int) (function argument : LazyLoadableTerm)
  | Constant (id : Int) (constant : LazyLoadableConstant)
  | Force (id : Int) (term : LazyLoadableTerm)
  | Error (id : Int)
  | Builtin (id : Int) (fn : String)
  | Constr (id : Int) (constructor_tag : Nat) (fields : List LazyLoadableTerm)
  | Case (id : Int) (constr : LazyLoadableTerm) (branches : List LazyLoadableTerm)
end

/-- Lazy static-reference-or-inline-term wire shape (serializer.rs,
EitherTermOrIdLazy). -/
inductive EitherTermOrIdLazy where
  | Term (term : LazyLoadableTerm)
  | Id (id : Int)

/-- Loaded-or-stub wrapper for a term-or-id (lazy_loading.rs,
LazyLoadableTermOrId). -/
inductive LazyLoadableTermOrId where
  | Loaded (t : EitherTermOrIdLazy)
  | TypeOnly (type_name kind : String) (length : Option Nat)

mutual
/-- Partial wire shape of a runtime value (value.rs,
SerializableValueLazy). -/
inductive SerializableValueLazy where
  | Con (constant : LazyLoadableConstant)
  | Delay (body : LazyLoadableTermOrId) (env : LazyLoadableEnv) (term_id : Int)
  | Lambda (parameter_name : String) (body : LazyLoadableTermOrId)
      (env : LazyLoadableEnv) (term_id : Int)
  | Builtin (fn : String) (runtime : LazyLoadableBuiltinRuntime) (term_id : Int)
  | Constr (tag : Nat) (fields : List LazyLoadableValue) (term_id : Int)

/-- Loaded-or-stub wrapper for a lazy value (lazy_loading.rs,
LazyLoadableValue). -/
inductive LazyLoadableValue where
  | Loaded (v : SerializableValueLazy)
  | TypeOnly (type_name kind : String) (length : Option Nat)

/-- Partial wire shape of an environment, including the truncation metadata
of full loading (value.rs, SerializableEnvLazy). -/
inductive SerializableEnvLazy where
  | mk (values : List LazyLoadableValue) (displayed_count : Option Nat)
      (total_count : Option Nat) (truncation_message : Option String)

/-- Loaded-or-stub wrapper for a lazy environment (lazy_loading.rs,
LazyLoadableEnv). -/
inductive LazyLoadableEnv where
  | Loaded (e : SerializableEnvLazy)
  | TypeOnly (type_name kind : String) (length : Option Nat)

/-- Partial wire shape of a builtin runtime (value.rs,
SerializableBuiltinRuntimeLazy). -/
inductive SerializableBuiltinRuntimeLazy where
  | mk (args : List LazyLoadableValue) (fn : String) (forces : Nat) (arity : Nat)

/-- Loaded-or-stub wrapper for a lazy builtin runtime (lazy_loading.rs,
LazyLoadableBuiltinRuntime). -/
inductive LazyLoadableBuiltinRuntime where
  | Loaded (r : SerializableBuiltinRuntimeLazy)
  | TypeOnly (type_name kind : String) (length : Option Nat)
end

/-- Values list of a lazy environment shape. -/
def SerializableEnvLazy.values : SerializableEnvLazy → List LazyLoadableValue
  | .mk vs _ _ _ => vs

/-- Displayed-count field of a lazy environment shape. -/
def SerializableEnvLazy.displayed_count : SerializableEnvLazy → Option Nat
  | .mk _ d _ _ => d

/-- Total-count field of a lazy environment shape. -/
def SerializableEnvLazy.total_count : SerializableEnvLazy → Option Nat
  | .mk _ _ t _ => t

/-- Truncation-message field of a lazy environment shape. -/
def SerializableEnvLazy.truncation_message : SerializableEnvLazy → Option String
  | .mk _ _ _ m => m

/-- Args list of a lazy builtin runtime shape. -/
def SerializableBuiltinRuntimeLazy.args :
    SerializableBuiltinRuntimeLazy → List LazyLoadableValue
  | .mk a _ _ _ => a

/-- Partial wire shape of a continuation frame (context.rs,
SerializableMachineContextLazy). -/
inductive SerializableMachineContextLazy where
  | FrameAwaitArg (value : LazyLoadableValue)
  | FrameAwaitFunTerm (env : LazyLoadableEnv) (term : LazyLoadableTermOrId)
  | FrameAwaitFunValue (value : LazyLoadableValue)
  | FrameForce
  | FrameConstr (env : LazyLoadableEnv) (tag : Nat)
      (terms : List LazyLoadableTermOrId) (values : List LazyLoadableValue)
      (term_id : Int)
  | FrameCases (env : LazyLoadableEnv) (terms : List LazyLoadableTermOrId)
  | NoFrame

/- ===== Lazy-loading helpers (value.rs, lines 751-817) ===== -/

/-- Maximum number of elements displayed when loading a full object
(value.rs, MAX_FULL_OBJECT_ELEMENTS). -/
def MAX_FULL_OBJECT_ELEMENTS : Nat := 10

/-- Decision whether a named scalar field is to be loaded: the path is
empty, or its head is exactly that field (value.rs, should_load_field). -/
def should_load_field (path : List PathSegment) (field_name : String) : Bool :=
  match path with
  | [] => true
  | .Field name :: _ => name == field_name
  | _ => false

/-- Path advance when descending into a named field: the head segment is
dropped exactly when it is that field (value.rs, advance_config). -/
def advance_config (config : LazyLoadConfig) (field_name : String) : LazyLoadConfig :=
  let new_path :=
    match config.path with
    | .Field name :: rest => if name == field_name then rest else config.path
    | _ => config.path
  ⟨new_path, config.return_full_object⟩

/-- Element-selection logic of load_vec_lazy (value.rs, load_vec_lazy):
some idx when exactly the element at idx receives the load function, none
when every element receives the type-stub function. An empty path stubs all
elements; a leading index (or an empty field name with a leading index)
selects that index; a leading matching field followed by an index selects
that index; everything else stubs all elements. -/
def load_vec_choice (path : List PathSegment) (field_name : String) : Option Nat :=
  match path with
  | [] => none
  | seg :: rest =>
    if field_name == "" || (match seg with | .Index _ => true | _ => false) then
      match seg with
      | .Index idx => some idx
      | _ => none
    else if (match seg with | .Field n => n == field_name | _ => false) then
      match rest with
      | .Index idx :: _ => some idx
      | _ => none
    else none

/-- Type-stub record of a constant (value.rs, get_constant_type_only). -/
def get_constant_type_only : UplcConstant → LazyLoadableConstant
  | .Integer i => .TypeOnly "Integer" (toString i) none
  | .ByteString bs => .TypeOnly "ByteString" (toString bs.length ++ " bytes") none
  | .Str s => .TypeOnly "String" (toString s.utf8ByteSize ++ " chars") none
  | .Bool b => .TypeOnly "Bool" (toString b) none
  | .Unit => .TypeOnly "Unit" "()" none
  | .ProtoList _ list =>
      .TypeOnly "ProtoList" (toString list.length ++ " items") (some list.length)
  | .ProtoPair _ _ _ _ => .TypeOnly "ProtoPair" "Pair" none
  | .Data _ => .TypeOnly "Data" "PlutusData" none
  | .Bls12_381G1Element _ => .TypeOnly "Bls12_381G1Element" "G1 point" none
  | .Bls12_381G2Element _ => .TypeOnly "Bls12_381G2Element" "G2 point" none
  | .Bls12_381MlResult _ => .TypeOnly "Bls12_381MlResult" "ML result" none

/-- Constant-kind string used inside the stub of a Con value (the inner
match of get_value_type_only_new in value.rs): the BLS variants fall to the
catch-all and are reported as Unknown. -/
def con_constant_kind : UplcConstant → String
  | .Integer _ => "Integer"
  | .ByteString _ => "ByteString"
  | .Str _ => "String"
  | .Bool _ => "Bool"
  | .Unit => "Unit"
  | .ProtoList _ _ => "ProtoList"
  | .ProtoPair _ _ _ _ => "ProtoPair"
  | .Data _ => "Data"
  | _ => "Unknown"

/-- Type-stub record of a runtime value (value.rs,
get_value_type_only_new). -/
def get_value_type_only_new : UplcValue → LazyLoadableValue
  | .Con constant => .TypeOnly "Con" (con_constant_kind constant) none
  | .Delay _ _ _ => .TypeOnly "Delay" "Delayed computation" none
  | .Lambda parameter_name _ _ _ => .TypeOnly "Lambda" ("λ" ++ parameter_name) none
  | .Builtin fn _ _ => .TypeOnly "Builtin" fn.debugName none
  | .Constr tag fields _ =>
      .TypeOnly "Constr" ("Constructor #" ++ toString tag) (some fields.length)

/- ===== Lazy constant projection (value.rs, from_uplc_constant_lazy) ===== -/

mutual
/-- Lazy projection of a constant (value.rs, from_uplc_constant_lazy):
scalar leaves are always materialized; a ProtoList either loads every
element (full) or goes through the load_vec_lazy selection; a ProtoPair
loads the element named by the path head; Data loads exactly when the path
head names data; the BLS leaves use the compressed G1/G2 serializations. -/
def from_uplc_constant_lazy (term_ids : Finset Int) (config : LazyLoadConfig) :
    UplcConstant → SerializableConstantLazy
  | .Integer i => .Integer (toString i)
  | .ByteString bs => .ByteString (hexEncode bs)
  | .Str s => .Str s
  | .Bool b => .Bool b
  | .Unit => .Unit
  | .ProtoList ty list =>
      let lazy_values :=
        if config.return_full_object then
          constant_list_full term_ids list
        else
          constant_list_selective term_ids
            (if (match config.path with | .Field n :: _ => n == "values" | _ => false) then
               ⟨config.path.drop 1, config.return_full_object⟩
             else ⟨[], config.return_full_object⟩)
            (load_vec_choice config.path "values") 0 list
      .ProtoList (SerializableType.from_uplc_type ty) lazy_values
  | .ProtoPair ty1 ty2 first_element second_element =>
      let lazy_first :=
        if should_load_field config.path "first_element" || config.return_full_object then
          .Loaded (from_uplc_constant_lazy term_ids
            (if config.return_full_object then ⟨[], true⟩
             else advance_config config "first_element") first_element)
        else get_constant_type_only first_element
      let lazy_second :=
        if should_load_field config.path "second_element" || config.return_full_object then
          .Loaded (from_uplc_constant_lazy term_ids
            (if config.return_full_object then ⟨[], true⟩
             else advance_config config "second_element") second_element)
        else get_constant_type_only second_element
      .ProtoPair (SerializableType.from_uplc_type ty1)
        (SerializableType.from_uplc_type ty2) lazy_first lazy_second
  | .Data d =>
      if should_load_field config.path "data" then
        .Data (.Loaded (SerializablePlutusData.from_pallas d))
      else
        .Data (.TypeOnly "PlutusData" "Data" none)
  | .Bls12_381G1Element elem =>
      .Bls12_381G1Element (serialize_bls_g1_element_compressed elem)
  | .Bls12_381G2Element elem =>
      .Bls12_381G2Element (serialize_bls_g2_element_compressed elem)
  | .Bls12_381MlResult elem =>
      .Bls12_381MlResult (hexEncode (fixBuffer 576 elem.bytes))

/-- Full loading of a constant list (the return_full_object branch of the
ProtoList case). -/
def constant_list_full (term_ids : Finset Int) :
    List UplcConstant → List LazyLoadableConstant
  | [] => []
  | c :: cs =>
      .Loaded (from_uplc_constant_lazy term_ids ⟨[], true⟩ c) ::
        constant_list_full term_ids cs

/-- Selective loading of a constant list following the load_vec_lazy
selection: the chosen index is loaded with the item config, every other
element is stubbed. -/
def constant_list_selective (term_ids : Finset Int) (item_config : LazyLoadConfig)
    (sel : Option Nat) (i : Nat) :
    List UplcConstant → List LazyLoadableConstant
  | [] => []
  | c :: cs =>
      (if sel = some i then
         .Loaded (from_uplc_constant_lazy term_ids item_config c)
       else get_constant_type_only c) ::
        constant_list_selective term_ids item_config sel (i + 1) cs
end

/- ===== Lazy term projection (serializer.rs,
SerializableTermLazy::from_uplc_term_lazy) ===== -/

mutual
/-- Lazy projection of a term (serializer.rs,
SerializableTermLazy::from_uplc_term_lazy): each scalar child is loaded
when its field name heads the path or the full flag is set, stubbing it
otherwise; Constr fields and Case branches are loaded uniformly, with the
element config dropping the field-plus-index prefix of the path. -/
def SerializableTermLazy.from_uplc_term_lazy (term_ids : Finset Int)
    (config : LazyLoadConfig) : UplcTerm → SerializableTermLazy
  | .Var name u => .Var (i32ofUsize u) name
  | .Delay body u =>
      let lazy_term : LazyLoadableTerm :=
        if should_load_field config.path "term" || config.return_full_object then
          .Loaded (SerializableTermLazy.from_uplc_term_lazy term_ids
            (advance_config config "term") body)
        else .TypeOnly "Term" "Term" none
      .Delay (i32ofUsize u) lazy_term
  | .Lambda parameter_name body u =>
      let lazy_body : LazyLoadableTerm :=
        if should_load_field config.path "body" || config.return_full_object then
          .Loaded (SerializableTermLazy.from_uplc_term_lazy term_ids
            (advance_config config "body") body)
        else .TypeOnly "Term" "Term" none
      .Lambda (i32ofUsize u) parameter_name lazy_body
  | .Apply function argument u =>
      let lazy_function : LazyLoadableTerm :=
        if should_load_field config.path "function" || config.return_full_object then
          .Loaded (SerializableTermLazy.from_uplc_term_lazy term_ids
            (advance_config config "function") function)
        else .TypeOnly "Term" "Term" none
      let lazy_argument : LazyLoadableTerm :=
        if should_load_field config.path "argument" || config.return_full_object then
          .Loaded (SerializableTermLazy.from_uplc_term_lazy term_ids
            (advance_config config "argument") argument)
        else .TypeOnly "Term" "Term" none
      .Apply (i32ofUsize u) lazy_function lazy_argument
  | .Constant value u =>
      let lazy_constant : LazyLoadableConstant :=
        if should_load_field config.path "constant" || config.return_full_object then
          .Loaded (from_uplc_constant_lazy term_ids
            (advance_config config "constant") value)
        else .TypeOnly "Constant" "Constant" none
      .Constant (i32ofUsize u) lazy_constant
  | .Force body u =>
      let lazy_term : LazyLoadableTerm :=
        if should_load_field config.path "term" || config.return_full_object then
          .Loaded (SerializableTermLazy.from_uplc_term_lazy term_ids
            (advance_config config "term") body)
        else .TypeOnly "Term" "Term" none
      .Force (i32ofUsize u) lazy_term
  | .Error u => .Error (i32ofUsize u)
  | .Builtin fn u => .Builtin (i32ofUsize u) fn.debugName
  | .Constr tag fields u =>
      let load := should_load_field config.path "fields" || config.return_full_object
      let field_config : LazyLoadConfig :=
        ⟨if config.path.head? = some (.Field "fields") then config.path.drop 2 else [],
         config.return_full_object⟩
      .Constr (i32ofUsize u) tag (term_lazy_elems term_ids load field_config fields)
  | .Case constr branches u =>
      let lazy_constr : LazyLoadableTerm :=
        if should_load_field config.path "constr" || config.return_full_object then
          .Loaded (SerializableTermLazy.from_uplc_term_lazy term_ids
            (advance_config config "constr") constr)
        else .TypeOnly "Term" "Term" none
      let load := should_load_field config.path "branches" || config.return_full_object
      let branch_config : LazyLoadConfig :=
        ⟨if config.path.head? = some (.Field "branches") then config.path.drop 2 else [],
         config.return_full_object⟩
      .Case (i32ofUsize u) lazy_constr (term_lazy_elems term_ids load branch_config branches)

/-- Uniform loading or stubbing of a term list (the element maps in the
Constr and Case cases of from_uplc_term_lazy: every element is loaded with
the same config when the load decision holds, stubbed otherwise). -/
def term_lazy_elems (term_ids : Finset Int) (load : Bool)
    (elem_config : LazyLoadConfig) : List UplcTerm → List LazyLoadableTerm
  | [] => []
  | t :: ts =>
      (if load then
         .Loaded (SerializableTermLazy.from_uplc_term_lazy term_ids elem_config t)
       else .TypeOnly "Term" "Term" none) ::
        term_lazy_elems term_ids load elem_config ts
end

/- ===== Lazy value projection (value.rs) ===== -/

/-- Placeholder inline lazy term conversion of value.rs
(value.rs, from_uplc_term_lazy): the source carries an explicit TODO and
returns a Var with id 0 and name TODO instead of converting the term. This
is the function term_to_either_term_or_id_lazy dispatches to, not the full
implementation living in serializer.rs. -/
def value_from_uplc_term_lazy (_term : UplcTerm) (_term_ids : Finset Int)
    (_config : LazyLoadConfig) : SerializableTermLazy :=
  .Var 0 "TODO"

/-- Lazy static-id short-circuit for a term reference (value.rs,
term_to_either_term_or_id_lazy): a reference token when the term's id is in
the static-id set; otherwise an inline rendering, loaded when the full flag
is set or the path is empty and stubbed otherwise. -/
def term_to_either_term_or_id_lazy (term : UplcTerm) (term_ids : Finset Int)
    (config : LazyLoadConfig) : EitherTermOrIdLazy :=
  let uniq_id := i32ofUsize term.uniqId
  if uniq_id ∈ term_ids then .Id uniq_id
  else
    let lazy_term : LazyLoadableTerm :=
      if config.return_full_object || config.path.isEmpty then
        .Loaded (value_from_uplc_term_lazy term term_ids config)
      else
        .TypeOnly "Term" ("Term ID: " ++ toString uniq_id) none
    .Term lazy_term

/-- Positivity of the size of any term, used for the termination measures of
the lazy value projection. -/
theorem UplcTerm.one_le_sizeOf (t : UplcTerm) : 1 ≤ sizeOf t := by
  cases t <;> simp_arith

mutual
/-- Lazy projection of a runtime value (value.rs, from_uplc_value_lazy). -/
def from_uplc_value_lazy (term_ids : Finset Int) (config : LazyLoadConfig) :
    UplcValue → SerializableValueLazy
  | .Con constant =>
      let lazy_constant : LazyLoadableConstant :=
        if config.return_full_object || config.path.isEmpty then
          let const_config :=
            if config.return_full_object then (⟨[], true⟩ : LazyLoadConfig)
            else config
          .Loaded (from_uplc_constant_lazy term_ids const_config constant)
        else get_constant_type_only constant
      .Con lazy_constant
  | .Delay body env term_id =>
      let lazy_body : LazyLoadableTermOrId :=
        if should_load_field config.path "body" || config.return_full_object then
          let body_config :=
            if config.return_full_object then (⟨[], true⟩ : LazyLoadConfig)
            else advance_config config "body"
          .Loaded (term_to_either_term_or_id_lazy body term_ids body_config)
        else .TypeOnly "Term" "Term" none
      let lazy_env : LazyLoadableEnv :=
        if should_load_field config.path "env" || config.return_full_object then
          let env_config :=
            if config.return_full_object then (⟨[], true⟩ : LazyLoadConfig)
            else advance_config config "env"
          .Loaded (from_uplc_env_lazy term_ids env_config env)
        else
          .TypeOnly "Env" ("Environment (" ++ toString env.length ++ " values)")
            (some env.length)
      .Delay lazy_body lazy_env (i32ofUsize term_id)
  | .Lambda parameter_name body env term_id =>
      let lazy_body : LazyLoadableTermOrId :=
        if should_load_field config.path "body" || config.return_full_object then
          let body_config :=
            if config.return_full_object then (⟨[], true⟩ : LazyLoadConfig)
            else advance_config config "body"
          .Loaded (term_to_either_term_or_id_lazy body term_ids body_config)
        else .TypeOnly "Term" "Term" none
      let lazy_env : LazyLoadableEnv :=
        if should_load_field config.path "env" || config.return_full_object then
          let env_config :=
            if config.return_full_object then (⟨[], true⟩ : LazyLoadConfig)
            else advance_config config "env"
          .Loaded (from_uplc_env_lazy term_ids env_config env)
        else
          .TypeOnly "Env" ("Environment (" ++ toString env.length ++ " values)")
            (some env.length)
      .Lambda parameter_name lazy_body lazy_env (i32ofUsize term_id)
  | .Builtin fn runtime term_id =>
      let lazy_runtime : LazyLoadableBuiltinRuntime :=
        if should_load_field config.path "runtime" || config.return_full_object then
          let runtime_config :=
            if config.return_full_object then (⟨[], true⟩ : LazyLoadConfig)
            else advance_config config "runtime"
          .Loaded (from_uplc_runtime_lazy term_ids runtime_config runtime)
        else .TypeOnly "BuiltinRuntime" (fn.debugName ++ " runtime") none
      .Builtin fn.debugName lazy_runtime (i32ofUsize term_id)
  | .Constr tag fields term_id =>
      let lazy_fields : List LazyLoadableValue :=
        if config.return_full_object then
          value_list_full term_ids fields
        else
          value_list_selective term_ids
            (if (match config.path with | .Field n :: _ => n == "fields" | _ => false) then
               ⟨config.path.drop 1, config.return_full_object⟩
             else ⟨[], config.return_full_object⟩)
            (load_vec_choice config.path "fields") 0 fields
      .Constr tag lazy_fields (i32ofUsize term_id)
termination_by v => sizeOf v
decreasing_by
  all_goals simp_wf
  all_goals try omega
  all_goals (have hb := UplcTerm.one_le_sizeOf body; omega)

/-- Lazy projection of an environment (value.rs,
SerializableEnv::from_uplc_env_lazy): with the full flag the first
MAX_FULL_OBJECT_ELEMENTS elements are loaded recursively and the truncation
metadata is set exactly when the environment is longer; otherwise the
load_vec_lazy selection (with an empty field name, so direct indexing)
decides which single element, if any, is loaded. -/
def from_uplc_env_lazy (term_ids : Finset Int) (config : LazyLoadConfig)
    (env : List UplcValue) : SerializableEnvLazy :=
  let total_count := env.length
  if config.return_full_object then
    let elements_to_load :=
      if total_count > MAX_FULL_OBJECT_ELEMENTS then MAX_FULL_OBJECT_ELEMENTS
      else total_count
    let values := value_list_full_take term_ids elements_to_load env
    if total_count > MAX_FULL_OBJECT_ELEMENTS then
      .mk values (some elements_to_load) (some total_count)
        (some ("Showing " ++ toString elements_to_load ++ " of " ++
          toString total_count ++
          " elements. Use the left panel tree view to explore specific elements."))
    else
      .mk values none none none
  else
    let inner_config : LazyLoadConfig :=
      if config.path.length = 1 then ⟨[], config.return_full_object⟩
      else ⟨config.path.drop 1, config.return_full_object⟩
    .mk (value_list_selective term_ids inner_config
      (load_vec_choice config.path "") 0 env) none none none
termination_by sizeOf env + 1

/-- Lazy projection of a builtin runtime (value.rs,
from_uplc_runtime_lazy); its fun field is the Display name without the
uppercasing applied by the plain encoder. -/
def from_uplc_runtime_lazy (term_ids : Finset Int) (config : LazyLoadConfig) :
    UplcBuiltinRuntime → SerializableBuiltinRuntimeLazy
  | .mk args fn forces =>
      let lazy_args : List LazyLoadableValue :=
        if config.return_full_object then
          value_list_full term_ids args
        else
          value_list_selective term_ids
            (if (match config.path with | .Field n :: _ => n == "args" | _ => false) then
               ⟨config.path.drop 1, config.return_full_object⟩
             else ⟨[], config.return_full_object⟩)
            (load_vec_choice config.path "args") 0 args
      .mk lazy_args fn.displayName forces fn.arity
termination_by rt => sizeOf rt

/-- Full loading of a value list (the return_full_object branches over
constructor fields and builtin args in value.rs). -/
def value_list_full (term_ids : Finset Int) :
    List UplcValue → List LazyLoadableValue
  | [] => []
  | v :: vs =>
      .Loaded (from_uplc_value_lazy term_ids ⟨[], true⟩ v) ::
        value_list_full term_ids vs
termination_by l => sizeOf l

/-- Full loading of the first n elements of a value list (the take-then-map
of the full branch of from_uplc_env_lazy). -/
def value_list_full_take (term_ids : Finset Int) :
    Nat → List UplcValue → List LazyLoadableValue
  | _, [] => []
  | 0, _ :: _ => []
  | n + 1, v :: vs =>
      .Loaded (from_uplc_value_lazy term_ids ⟨[], true⟩ v) ::
        value_list_full_take term_ids n vs
termination_by n l => sizeOf l

/-- Selective loading of a value list following the load_vec_lazy
selection: the chosen index is loaded with the item config, every other
element is stubbed with its type record. -/
def value_list_selective (term_ids : Finset Int) (item_config : LazyLoadConfig)
    (sel : Option Nat) (i : Nat) :
    List UplcValue → List LazyLoadableValue
  | [] => []
  | v :: vs =>
      (if sel = some i then
         .Loaded (from_uplc_value_lazy term_ids item_config v)
       else get_value_type_only_new v) ::
        value_list_selective term_ids item_config sel (i + 1) vs
termination_by l => sizeOf l
end

/- ===== Lazy context projection (context.rs, from_uplc_context_lazy) ===== -/

/-- Element treatment of a frame's stacked term list (the load_vec_lazy
calls on terms inside FrameConstr and FrameCases): a selected element is
loaded through term_to_either_term_or_id_lazy with an empty path, every
other element becomes the fixed Term stub. -/
def frame_terms_lazy (term_ids : Finset Int) (ro : Bool) (sel : Option Nat)
    (i : Nat) : List UplcTerm → List LazyLoadableTermOrId
  | [] => []
  | t :: ts =>
      (if sel = some i then
         .Loaded (term_to_either_term_or_id_lazy t term_ids ⟨[], ro⟩)
       else .TypeOnly "Term" "Term" none) ::
        frame_terms_lazy term_ids ro sel (i + 1) ts

/-- Element treatment of a frame's stacked value list (the load_vec_lazy
call on values inside FrameConstr): a selected element is loaded through
from_uplc_value_lazy with an empty path, every other element becomes its
type stub. -/
def frame_values_lazy (term_ids : Finset Int) (ro : Bool) (sel : Option Nat)
    (i : Nat) : List UplcValue → List LazyLoadableValue
  | [] => []
  | v :: vs =>
      (if sel = some i then
         .Loaded (from_uplc_value_lazy term_ids ⟨[], ro⟩ v)
       else get_value_type_only_new v) ::
        frame_values_lazy term_ids ro sel (i + 1) vs

/-- Lazy projection of a continuation frame (context.rs,
SerializableMachineContext::from_uplc_context_lazy). The stacked term and
value collections always go through the load_vec_lazy selection; the full
flag only propagates into the per-element configs. -/
def from_uplc_context_lazy (term_ids : Finset Int) (config : LazyLoadConfig) :
    UplcContext → SerializableMachineContextLazy
  | .FrameAwaitArg value =>
      let lazy_value : LazyLoadableValue :=
        if should_load_field config.path "value" || config.return_full_object then
          let value_config :=
            if config.return_full_object then (⟨[], true⟩ : LazyLoadConfig)
            else advance_config config "value"
          .Loaded (from_uplc_value_lazy term_ids value_config value)
        else get_value_type_only_new value
      .FrameAwaitArg lazy_value
  | .FrameAwaitFunTerm env term =>
      let lazy_env : LazyLoadableEnv :=
        if should_load_field config.path "env" || config.return_full_object then
          let env_config :=
            if config.return_full_object then (⟨[], true⟩ : LazyLoadConfig)
            else advance_config config "env"
          .Loaded (from_uplc_env_lazy term_ids env_config env)
        else
          .TypeOnly "Env" ("Environment (" ++ toString env.length ++ " values)")
            (some env.length)
      let lazy_term : LazyLoadableTermOrId :=
        if should_load_field config.path "term" || config.return_full_object then
          let term_config :=
            if config.return_full_object then (⟨[], true⟩ : LazyLoadConfig)
            else advance_config config "term"
          .Loaded (term_to_either_term_or_id_lazy term term_ids term_config)
        else .TypeOnly "Term" "Term" none
      .FrameAwaitFunTerm lazy_env lazy_term
  | .FrameAwaitFunValue value =>
      let lazy_value : LazyLoadableValue :=
        if should_load_field config.path "value" || config.return_full_object then
          let value_config :=
            if config.return_full_object then (⟨[], true⟩ : LazyLoadConfig)
            else advance_config config "value"
          .Loaded (from_uplc_value_lazy term_ids value_config value)
        else get_value_type_only_new value
      .FrameAwaitFunValue lazy_value
  | .FrameForce => .FrameForce
  | .FrameConstr env tag terms values term_id =>
      let lazy_env : LazyLoadableEnv :=
        if should_load_field config.path "env" || config.return_full_object then
          let env_config :=
            if config.return_full_object then (⟨[], true⟩ : LazyLoadConfig)
            else advance_config config "env"
          .Loaded (from_uplc_env_lazy term_ids env_config env)
        else
          .TypeOnly "Env" ("Environment (" ++ toString env.length ++ " values)")
            (some env.length)
      .FrameConstr lazy_env tag
        (frame_terms_lazy term_ids config.return_full_object
          (load_vec_choice config.path "terms") 0 terms)
        (frame_values_lazy term_ids config.return_full_object
          (load_vec_choice config.path "values") 0 values)
        (i32ofUsize term_id)
  | .FrameCases env terms =>
      let lazy_env : LazyLoadableEnv :=
        if should_load_field config.path "env" || config.return_full_object then
          let env_config :=
            if config.return_full_object then (⟨[], true⟩ : LazyLoadConfig)
            else advance_config config "env"
          .Loaded (from_uplc_env_lazy term_ids env_config env)
        else
          .TypeOnly "Env" ("Environment (" ++ toString env.length ++ " values)")
            (some env.length)
      .FrameCases lazy_env
        (frame_terms_lazy term_ids config.return_full_object
          (load_vec_choice config.path "terms") 0 terms)
  | .NoFrame => .NoFrame

/- ===== Path navigation (serializer.rs, navigate_to_constant_lazy and
navigate_to_term_lazy; value.rs, navigate_to_value and friends).
The interpolated Rust error messages quote field names with single quotes;
those quotes are elided here, the rest of each message is kept verbatim. -/

/-- Navigation inside a constant (serializer.rs,
navigate_to_constant_lazy). An empty path projects the constant itself; a
ProtoList descends through values-plus-index; a ProtoPair descends through
its element fields; every terminal constant returns itself as Found for any
remaining path (the source comments this arm as a flow that should not be
reached); anything else is an invalid path. -/
def navigate_to_constant_lazy (term_ids : Finset Int) (return_full_object : Bool) :
    UplcConstant → List PathSegment → NavigationResult SerializableConstantLazy
  | c, [] => .Found (from_uplc_constant_lazy term_ids ⟨[], return_full_object⟩ c)
  | .ProtoList ty values, .Field f :: rest =>
      if f = "values" then
        match rest with
        | .Index idx :: rest2 =>
            match h : values.get? idx with
            | some v => navigate_to_constant_lazy term_ids return_full_object v rest2
            | none =>
                .InvalidPath ("Index " ++ toString idx ++ " out of bounds in constant list")
        | _ => .InvalidPath "Expected index after values"
      else
        .InvalidPath ("Invalid navigation path " ++ pathDebug (.Field f :: rest) ++
          " for constant")
  | .ProtoPair ty1 ty2 first_element second_element, .Field f :: rest =>
      if f = "first_element" then
        navigate_to_constant_lazy term_ids return_full_object first_element rest
      else if f = "second_element" then
        navigate_to_constant_lazy term_ids return_full_object second_element rest
      else
        .InvalidPath ("Invalid navigation path " ++ pathDebug (.Field f :: rest) ++
          " for constant")
  | .Integer v, _ :: _ =>
      .Found (from_uplc_constant_lazy term_ids ⟨[], return_full_object⟩ (.Integer v))
  | .ByteString v, _ :: _ =>
      .Found (from_uplc_constant_lazy term_ids ⟨[], return_full_object⟩ (.ByteString v))
  | .Str v, _ :: _ =>
      .Found (from_uplc_constant_lazy term_ids ⟨[], return_full_object⟩ (.Str v))
  | .Bool v, _ :: _ =>
      .Found (from_uplc_constant_lazy term_ids ⟨[], return_full_object⟩ (.Bool v))
  | .Unit, _ :: _ =>
      .Found (from_uplc_constant_lazy term_ids ⟨[], return_full_object⟩ .Unit)
  | .Bls12_381G1Element v, _ :: _ =>
      .Found (from_uplc_constant_lazy term_ids ⟨[], return_full_object⟩
        (.Bls12_381G1Element v))
  | .Bls12_381G2Element v, _ :: _ =>
      .Found (from_uplc_constant_lazy term_ids ⟨[], return_full_object⟩
        (.Bls12_381G2Element v))
  | .Bls12_381MlResult v, _ :: _ =>
      .Found (from_uplc_constant_lazy term_ids ⟨[], return_full_object⟩
        (.Bls12_381MlResult v))
  | .Data v, _ :: _ =>
      .Found (from_uplc_constant_lazy term_ids ⟨[], return_full_object⟩ (.Data v))
  | c, seg :: rest =>
      .InvalidPath ("Invalid navigation path " ++ pathDebug (seg :: rest) ++
        " for constant")

/-- Navigation inside a term (serializer.rs, navigate_to_term_lazy). An
empty path projects the term at the target; otherwise the head segment must
name a child field of the current node (with an index following a
collection field), and anything else is an invalid path. -/
def navigate_to_term_lazy (term_ids : Finset Int) (return_full_object : Bool) :
    UplcTerm → List PathSegment → NavigationResult SerializableTermLazy
  | t, [] =>
      .Found (SerializableTermLazy.from_uplc_term_lazy term_ids
        ⟨[], return_full_object⟩ t)
  | .Delay body u, .Field f :: rest =>
      if f = "term" then navigate_to_term_lazy term_ids return_full_object body rest
      else
        .InvalidPath ("Cannot navigate path " ++ pathDebug (.Field f :: rest) ++
          " in term type")
  | .Lambda pn body u, .Field f :: rest =>
      if f = "body" then navigate_to_term_lazy term_ids return_full_object body rest
      else
        .InvalidPath ("Cannot navigate path " ++ pathDebug (.Field f :: rest) ++
          " in term type")
  | .Apply function argument u, .Field f :: rest =>
      if f = "function" then
        navigate_to_term_lazy term_ids return_full_object function rest
      else if f = "argument" then
        navigate_to_term_lazy term_ids return_full_object argument rest
      else
        .InvalidPath ("Cannot navigate path " ++ pathDebug (.Field f :: rest) ++
          " in term type")
  | .Force body u, .Field f :: rest =>
      if f = "term" then navigate_to_term_lazy term_ids return_full_object body rest
      else
        .InvalidPath ("Cannot navigate path " ++ pathDebug (.Field f :: rest) ++
          " in term type")
  | .Constr tag fields u, .Field f :: rest =>
      if f = "fields" then
        match rest with
        | .Index idx :: rest2 =>
            match h : fields.get? idx with
            | some field => navigate_to_term_lazy term_ids return_full_object field rest2
            | none => .InvalidPath ("Index " ++ toString idx ++ " out of bounds in fields")
        | _ => .InvalidPath "Expected index after fields"
      else
        .InvalidPath ("Cannot navigate path " ++ pathDebug (.Field f :: rest) ++
          " in term type")
  | .Case constr branches u, .Field f :: rest =>
      if f = "constr" then
        navigate_to_term_lazy term_ids return_full_object constr rest
      else if f = "branches" then
        match rest with
        | .Index idx :: rest2 =>
            match h : branches.get? idx with
            | some branch => navigate_to_term_lazy term_ids return_full_object branch rest2
            | none => .InvalidPath ("Index " ++ toString idx ++ " out of bounds in branches")
        | _ => .InvalidPath "Expected index after branches"
      else
        .InvalidPath ("Cannot navigate path " ++ pathDebug (.Field f :: rest) ++
          " in term type")
  | .Constant value u, .Field f :: rest =>
      if f = "constant" then
        match navigate_to_constant_lazy term_ids return_full_object value rest with
        | .Found constant_lazy =>
            .Found (.Constant (i32ofUsize u) (.Loaded constant_lazy))
        | .InvalidPath msg => .InvalidPath msg
        | .Incomplete => .Incomplete
      else
        .InvalidPath ("Cannot navigate path " ++ pathDebug (.Field f :: rest) ++
          " in term type")
  | t, seg :: rest =>
      .InvalidPath ("Cannot navigate path " ++ pathDebug (seg :: rest) ++
        " in term type")

mutual
/-- Navigation inside a runtime value (value.rs, navigate_to_value). -/
def navigate_to_value (term_ids : Finset Int) (return_full_object : Bool) :
    UplcValue → List PathSegment → NavigationResult SerializableValueLazy
  | v, [] => .Found (from_uplc_value_lazy term_ids ⟨[], return_full_object⟩ v)
  | .Con constant, .Field f :: rest =>
      if f = "constant" then
        match navigate_to_constant_lazy term_ids return_full_object constant rest with
        | .Found constant_lazy => .Found (.Con (.Loaded constant_lazy))
        | .InvalidPath msg => .InvalidPath msg
        | .Incomplete => .Incomplete
      else
        .InvalidPath ("Cannot navigate path " ++ pathDebug (.Field f :: rest) ++
          " in value type")
  | .Constr tag fields term_id, .Field f :: rest =>
      if f = "fields" then
        match rest with
        | .Index idx :: rest2 =>
            match h : fields.get? idx with
            | some field => navigate_to_value term_ids return_full_object field rest2
            | none => .InvalidPath ("Index " ++ toString idx ++ " out of bounds")
        | _ => .InvalidPath "Expected index after fields"
      else
        .InvalidPath ("Cannot navigate path " ++ pathDebug (.Field f :: rest) ++
          " in value type")
  | .Lambda pn body env term_id, .Field f :: rest =>
      if f = "body" then
        match navigate_to_term_lazy term_ids return_full_object body rest with
        | .Found _ => .InvalidPath "Body is a Term, cannot return as Value"
        | .InvalidPath msg => .InvalidPath msg
        | .Incomplete => .Incomplete
      else if f = "env" then
        navigate_to_env term_ids return_full_object env rest
      else
        .InvalidPath ("Cannot navigate path " ++ pathDebug (.Field f :: rest) ++
          " in value type")
  | .Delay body env term_id, .Field f :: rest =>
      if f = "body" then
        match navigate_to_term_lazy term_ids return_full_object body rest with
        | .Found _ => .InvalidPath "Body is a Term, cannot return as Value"
        | .InvalidPath msg => .InvalidPath msg
        | .Incomplete => .Incomplete
      else if f = "env" then
        navigate_to_env term_ids return_full_object env rest
      else
        .InvalidPath ("Cannot navigate path " ++ pathDebug (.Field f :: rest) ++
          " in value type")
  | .Builtin fn runtime term_id, .Field f :: rest =>
      if f = "runtime" then
        navigate_to_runtime term_ids return_full_object runtime rest
      else
        .InvalidPath ("Cannot navigate path " ++ pathDebug (.Field f :: rest) ++
          " in value type")
  | v, seg :: rest =>
      .InvalidPath ("Cannot navigate path " ++ pathDebug (seg :: rest) ++
        " in value type")
termination_by v => sizeOf v
decreasing_by
  all_goals simp_wf
  all_goals first
    | omega
    | (have hlt := List.sizeOf_lt_of_mem (List.get?_mem (by assumption)); omega)

/-- Navigation inside a builtin runtime (value.rs, navigate_to_runtime):
only the args collection is addressable, and an empty path cannot produce a
value. -/
def navigate_to_runtime (term_ids : Finset Int) (return_full_object : Bool) :
    UplcBuiltinRuntime → List PathSegment → NavigationResult SerializableValueLazy
  | _, [] => .InvalidPath "Cannot return runtime as value"
  | .mk args fn forces, .Field f :: rest =>
      if f = "args" then
        match rest with
        | .Index idx :: rest2 =>
            match h : args.get? idx with
            | some arg => navigate_to_value term_ids return_full_object arg rest2
            | none =>
                .InvalidPath ("Index " ++ toString idx ++ " out of bounds in runtime args")
        | _ => .InvalidPath "Expected index after args"
      else
        .InvalidPath ("Cannot navigate path " ++ pathDebug (.Field f :: rest) ++
          " in runtime")
  | rt, seg :: rest =>
      .InvalidPath ("Cannot navigate path " ++ pathDebug (seg :: rest) ++
        " in runtime")
termination_by rt => sizeOf rt
decreasing_by
  all_goals simp_wf
  all_goals first
    | omega
    | (have hlt := List.sizeOf_lt_of_mem (List.get?_mem (by assumption)); omega)

/-- Navigation inside an environment yielding a value (value.rs,
navigate_to_env): either values-plus-index or a direct index selects an
element; an empty path cannot produce a value. -/
def navigate_to_env (term_ids : Finset Int) (return_full_object : Bool) :
    List UplcValue → List PathSegment → NavigationResult SerializableValueLazy
  | _, [] => .InvalidPath "Cannot return env as a value"
  | env, .Field f :: rest =>
      if f = "values" then
        match rest with
        | .Index idx :: rest2 =>
            match h : env.get? idx with
            | some value => navigate_to_value term_ids return_full_object value rest2
            | none => .InvalidPath ("Index " ++ toString idx ++ " out of bounds in env")
        | _ => .InvalidPath "Expected index after values"
      else
        .InvalidPath ("Invalid path segment for env: " ++ pathDebug (.Field f :: rest))
  | env, .Index idx :: rest =>
      match h : env.get? idx with
      | some value => navigate_to_value term_ids return_full_object value rest
      | none => .InvalidPath ("Index " ++ toString idx ++ " out of bounds in env")
termination_by env => sizeOf env
decreasing_by
  all_goals simp_wf
  all_goals first
    | omega
    | (have hlt := List.sizeOf_lt_of_mem (List.get?_mem (by assumption)); omega)
end

/-- Navigation from an environment to a value (value.rs,
navigate_to_value_from_env). The Rust code unwraps the head segment, so an
empty path is unreachable at its call sites; it is mapped to an invalid
path here to keep the function total. -/
def navigate_to_value_from_env (term_ids : Finset Int) (return_full_object : Bool)
    (env : List UplcValue) :
    List PathSegment → NavigationResult SerializableValueLazy
  | [] => .InvalidPath "unreachable: empty path"
  | .Field f :: rest =>
      if f = "values" then
        match rest with
        | .Index idx :: rest2 =>
            match env.get? idx with
            | some value => navigate_to_value term_ids return_full_object value rest2
            | none => .InvalidPath ("Index " ++ toString idx ++ " out of bounds in env")
        | _ => .InvalidPath "Expected index after values"
      else
        .InvalidPath ("Invalid path segment for env: " ++ pathDebug (.Field f :: rest))
  | .Index idx :: rest =>
      match env.get? idx with
      | some value => navigate_to_value term_ids return_full_object value rest
      | none => .InvalidPath ("Index " ++ toString idx ++ " out of bounds in env")

/-- Navigation yielding an environment (value.rs, navigate_to_env_lazy): an
empty path projects the environment itself; a non-empty path must lead to a
value and therefore cannot produce an environment. -/
def navigate_to_env_lazy (term_ids : Finset Int) (return_full_object : Bool)
    (env : List UplcValue) (path : List PathSegment) :
    NavigationResult SerializableEnvLazy :=
  match path with
  | [] =>
      .Found (from_uplc_env_lazy term_ids ⟨[], return_full_object⟩ env)
  | _ =>
      match navigate_to_value_from_env term_ids return_full_object env path with
      | .Found _ => .InvalidPath "Path leads to a value, not an env"
      | .InvalidPath msg => .InvalidPath msg
      | .Incomplete => .Incomplete

/- ===== Session controller (debugger_engine/session_controller.rs) ===== -/

/-- Resource budget with a memory and a cpu dimension (uplc ExBudget,
i64 fields). -/
structure ExBudget where
  mem : Int
  cpu : Int
deriving DecidableEq, Repr

/-- Plutus language version (pallas Language). -/
inductive Language where
  | PlutusV1
  | PlutusV2
  | PlutusV3
deriving DecidableEq, Repr

/-- Cost model of the machine; opaque to the serializer and the session
bookkeeping, so carried as an abstract token. -/
inductive CostModel where
  | mk
deriving DecidableEq, Repr

/-- Script context value; opaque to the session bookkeeping claims, carried
as an abstract token. -/
inductive ScriptContext where
  | mk
deriving DecidableEq, Repr

/-- Program wrapper carrying the version triple and the entry term (uplc
Program). -/
structure Program where
  version : Nat × Nat × Nat
  term : UplcTerm

/-- Execution status reported by the external machine's step operation
(uplc manual_machine ExecutionStatus); the error payload is carried as its
display string. -/
inductive ExecutionStatus where
  | Ready
  | Done (term : UplcTerm)
  | Error (error : String)

/-- Wire shape of the execution status (debugger_engine/mod.rs,
SerializableExecutionStatus). -/
inductive SerializableExecutionStatus where
  | Ready
  | Done (result : SerializableTerm)
  | Error (message : String)

/-- Conversion of a machine execution status to its wire shape
(debugger_engine/mod.rs, the From implementations). -/
def SerializableExecutionStatus.fromExecutionStatus :
    ExecutionStatus → SerializableExecutionStatus
  | .Ready => .Ready
  | .Done term => .Done (SerializableTerm.from_uplc_term term)
  | .Error e => .Error e

/-- Observable state of the external uplc ManualMachine as the session
controller reads it: its remaining budget (the machine is built at the
ceiling budget and decrements it as it spends), its current state, its
trace lines, and its flattened continuation stack (the result of
collect_nested_contexts). -/
structure ManualMachine where
  ex_budget : ExBudget
  state : UplcMachineState
  traces : List String
  contexts : List UplcContext

/-- Interface of the external machine operations the session controller
delegates to: the fallible constructor (language, cost model, budget,
slippage, term) and the single-transition step. Both live in the uplc
crate, outside this repository, so they are taken as parameters. -/
structure MachineInterface where
  newMachine : Language → CostModel → ExBudget → Nat → UplcTerm →
    Except String ManualMachine
  stepMachine : ManualMachine → ManualMachine × ExecutionStatus

/-- Default slippage constant (session_controller.rs, DEFAULT_SLIPPAGE). -/
def DEFAULT_SLIPPAGE : Nat := 1

/-- Session controller state (session_controller.rs, SessionController).
The version counter is a u64 in Rust that is only ever incremented by one;
it is modelled as a Nat (wraparound after 2^64 increments is beyond the
model). -/
structure SessionController where
  redeemer : String
  session_id : String
  machine : ManualMachine
  language : Language
  real_budget : ExBudget
  image_budget : ExBudget
  script_hash : String
  last_error : Option String
  program_version : Nat × Nat × Nat
  entry_term : UplcTerm
  context : ScriptContext
  cost_model : CostModel
  term_ids : Finset Int
  version : Nat

/-- Construction of a session (session_controller.rs,
SessionController::new): builds the machine at the ceiling budget through
the external constructor, collects the static-id set from the entry term
once, and starts the version counter at zero. -/
def SessionController.new (iface : MachineInterface)
    (script_hash session_id : String) (language : Language) (program : Program)
    (script_context : ScriptContext) (cost_model : CostModel)
    (upper_bound_budget real_budget : ExBudget) (redeemer : String) :
    Except String SessionController :=
  let program_version := program.version
  let entry_term := program.term
  match iface.newMachine language cost_model upper_bound_budget DEFAULT_SLIPPAGE
      entry_term with
  | .error e => .error ("Failed to create manual machine: " ++ e)
  | .ok machine =>
      .ok
        { script_hash := script_hash
          session_id := session_id
          machine := machine
          language := language
          real_budget := real_budget
          image_budget := upper_bound_budget
          last_error := none
          program_version := program_version
          redeemer := redeemer
          entry_term := entry_term
          context := script_context
          cost_model := cost_model
          term_ids := collect_term_ids entry_term ∅
          version := 0 }

/-- Wire shape of the budget report (budget.rs, SerializableBudget). -/
structure SerializableBudget where
  ex_units_spent : Int
  ex_units_available : Int
  memory_units_spent : Int
  memory_units_available : Int
deriving DecidableEq, Repr

/-- Budget query (session_controller.rs, get_budget_inner): spent is the
ceiling (image) budget minus the machine's remaining budget, available is
the externally declared (real) budget, per dimension. -/
def SessionController.get_budget_inner (s : SessionController) :
    SerializableBudget :=
  let spent_budget := s.machine.ex_budget
  let real_budget := s.real_budget
  let image_budget := s.image_budget
  { ex_units_spent := image_budget.cpu - spent_budget.cpu
    ex_units_available := real_budget.cpu
    memory_units_spent := image_budget.mem - spent_budget.mem
    memory_units_available := real_budget.mem }

/-- Machine-state query (session_controller.rs, get_machine_state_inner). -/
def SessionController.get_machine_state_inner (s : SessionController) :
    SerializableMachineState :=
  SerializableMachineState.from_uplc_machine_state_with_ids s.machine.state s.term_ids

/-- Context-stack query (session_controller.rs, get_machine_context_inner). -/
def SessionController.get_machine_context_inner (s : SessionController) :
    List SerializableMachineContext :=
  s.machine.contexts.map
    (fun ctx => SerializableMachineContext.from_uplc_context_with_ids ctx s.term_ids)

/-- Logs query (session_controller.rs, get_logs_inner). -/
def SessionController.get_logs_inner (s : SessionController) : List String :=
  s.machine.traces

/-- Script query (session_controller.rs, get_script_inner). -/
def SessionController.get_script_inner (s : SessionController) : SerializableTerm :=
  SerializableTerm.from_uplc_term s.entry_term

/-- Current-node query (session_controller.rs, get_current_term_id): the id
of the term being computed, or -1 outside a Compute state. -/
def SessionController.get_current_term_id (s : SessionController) : Int :=
  match s.machine.state with
  | .Compute _ _ term => i32ofUsize term.uniqId
  | _ => -1

/-- Environment query (session_controller.rs, get_current_env_inner): the
environment of a Compute state or of a returned Lambda or Delay closure,
and an empty environment otherwise. -/
def SessionController.get_current_env_inner (s : SessionController) :
    SerializableEnv :=
  match s.machine.state with
  | .Compute _ env _ => SerializableEnv.from_uplc_env_with_ids env s.term_ids
  | .Return _ (.Lambda _ _ env _) =>
      SerializableEnv.from_uplc_env_with_ids env s.term_ids
  | .Return _ (.Delay _ env _) =>
      SerializableEnv.from_uplc_env_with_ids env s.term_ids
  | _ => .mk []

/-- Step operation (session_controller.rs, step_inner): increments the
version counter, then delegates one transition to the external machine and
encodes the reported status. -/
def SessionController.step_inner (iface : MachineInterface)
    (s : SessionController) : SessionController × SerializableExecutionStatus :=
  let s1 := { s with version := s.version + 1 }
  let stepped := iface.stepMachine s1.machine
  ({ s1 with machine := stepped.1 },
    SerializableExecutionStatus.fromExecutionStatus stepped.2)

/-- Reset operation (session_controller.rs, reset): increments the version
counter, rebuilds the machine from the original entry term and ceiling
budget, and clears the last error; a construction failure is propagated
after the version increment, leaving machine and last error unchanged. -/
def SessionController.reset (iface : MachineInterface) (s : SessionController) :
    SessionController × Except String Unit :=
  let s1 := { s with version := s.version + 1 }
  match iface.newMachine s1.language s1.cost_model s1.image_budget
      DEFAULT_SLIPPAGE s1.entry_term with
  | .error e => (s1, .error ("Failed to reset manual machine: " ++ e))
  | .ok new_machine =>
      ({ s1 with machine := new_machine, last_error := none }, .ok ())

/-- Query wrapper returning the untouched controller next to the payload,
mirroring the Rust shared-borrow discipline of the read-only operations. -/
def SessionController.get_budget_op (s : SessionController) :
    SessionController × SerializableBudget :=
  (s, s.get_budget_inner)

/-- Machine-state query as a state-paired operation. -/
def SessionController.get_machine_state_op (s : SessionController) :
    SessionController × SerializableMachineState :=
  (s, s.get_machine_state_inner)

/-- Context-stack query as a state-paired operation. -/
def SessionController.get_machine_context_op (s : SessionController) :
    SessionController × List SerializableMachineContext :=
  (s, s.get_machine_context_inner)

/-- Environment query as a state-paired operation. -/
def SessionController.get_current_env_op (s : SessionController) :
    SessionController × SerializableEnv :=
  (s, s.get_current_env_inner)

/-- Script query as a state-paired operation. -/
def SessionController.get_script_op (s : SessionController) :
    SessionController × SerializableTerm :=
  (s, s.get_script_inner)

/-- Logs query as a state-paired operation. -/
def SessionController.get_logs_op (s : SessionController) :
    SessionController × List String :=
  (s, s.get_logs_inner)

/-- Current-node query as a state-paired operation. -/
def SessionController.get_current_term_id_op (s : SessionController) :
    SessionController × Int :=
  (s, s.get_current_term_id)

/- ===== Lazy session api (debugger_engine/lazy_session_api.rs) ===== -/

/-- Compute-state discriminator of a machine state. -/
def UplcMachineState.isCompute : UplcMachineState → Bool
  | .Compute _ _ _ => true
  | _ => false

/-- Payload of the lazy environment query before JSON stringification: the
Rust function serializes either an environment shape or a navigated value
shape to a string; the embedding returns the shape itself. -/
inductive EnvLazyPayload where
  | envPayload (e : SerializableEnvLazy)
  | valuePayload (v : SerializableValueLazy)

/-- Lazy environment query (lazy_session_api.rs, get_current_env_lazy). In
a Compute state an empty path projects the whole environment and a
non-empty path must start with the values field or an index and navigates
to a value; outside a Compute state the reply is an environment shape with
an empty values list (the source constructs SerializableEnvLazy with only
the values field; the optional counters are absent on the wire). -/
def get_current_env_lazy (machine : ManualMachine) (term_ids : Finset Int)
    (path : List PathSegment) (return_full_object : Bool) :
    Except String EnvLazyPayload :=
  match machine.state with
  | .Compute _ env _ =>
      if path.isEmpty then
        .ok (.envPayload (from_uplc_env_lazy term_ids ⟨[], return_full_object⟩ env))
      else
        let result :=
          if path.head? = some (.Field "values") ||
              (match path.head? with | some (.Index _) => true | _ => false) then
            navigate_to_value_from_env term_ids return_full_object env path
          else
            .InvalidPath ("Invalid path for env: " ++ pathDebug path)
        match result with
        | .Found v => .ok (.valuePayload v)
        | .InvalidPath msg => .error msg
        | .Incomplete => .error "Path incomplete"
  | _ => .ok (.envPayload (.mk [] none none none))

/-- Maximum usize value of the wasm32 target the crate is built for
(usize is 32 bits wide there). -/
def USIZE_MAX : Nat := 2 ^ 32 - 1

/-- Model of Rust str::parse::&lt;usize&gt;: an optional leading plus sign,
then at least one ascii digit and nothing else, with the value bounded by
the target usize width. -/
def parse_usize (s : String) : Option Nat :=
  let chars := s.data
  let digits :=
    match chars with
    | '+' :: rest => rest
    | cs => cs
  if digits.isEmpty then none
  else if digits.all Char.isDigit then
    let v := digits.foldl (fun acc c => acc * 10 + (c.toNat - 48)) 0
    if v ≤ USIZE_MAX then some v else none
  else none

/-- Emptiness of the Rust str::trim of a string: trim().is_empty() holds
exactly when every character is whitespace (Rust trims Unicode whitespace;
the ascii whitespace classifier used here covers the characters appearing
in practice). -/
def rust_trim_is_empty (s : String) : Bool :=
  s.data.all Char.isWhitespace

/-- Path parsing (lazy_session_api.rs, parse_path): an empty or
whitespace-only string or the literal bracket pair is the empty path;
otherwise the string is decoded as a JSON array of strings (the serde_json
decoder is external and taken as a parameter), and each element parsing as
a usize becomes an index segment while every other element becomes a field
segment. -/
def parse_path (decode : String → Except String (List String))
    (path_json : String) : Except String (List PathSegment) :=
  if rust_trim_is_empty path_json || path_json == "[]" then .ok []
  else
    match decode path_json with
    | .error e => .error ("Invalid path format: " ++ e)
    | .ok path_array =>
        .ok (path_array.map (fun s =>
          match parse_usize s with
          | some index => .Index index
          | none => .Field s))

/- ===== Helper lemmas about the lazy projection workers ===== -/

/-- Full loading of a value list is an elementwise map. -/
theorem value_list_full_map (term_ids : Finset Int) (l : List UplcValue) :
    value_list_full term_ids l
      = l.map (fun v => .Loaded (from_uplc_value_lazy term_ids ⟨[], true⟩ v)) := by
  induction l with
  | nil => simp [value_list_full]
  | cons v vs ih => simp [value_list_full, ih]

/-- Full loading of a prefix is a map over the take. -/
theorem value_list_full_take_map (term_ids : Finset Int) (n : Nat)
    (l : List UplcValue) :
    value_list_full_take term_ids n l
      = (l.take n).map (fun v => .Loaded (from_uplc_value_lazy term_ids ⟨[], true⟩ v)) := by
  induction l generalizing n with
  | nil => cases n <;> simp [value_list_full_take]
  | cons v vs ih =>
    cases n with
    | zero => simp [value_list_full_take]
    | succ m => simp [value_list_full_take, ih]

/-- With no selected index, the frame term worker stubs every element. -/
theorem frame_terms_lazy_none (term_ids : Finset Int) (ro : Bool) (i : Nat)
    (l : List UplcTerm) :
    frame_terms_lazy term_ids ro none i l
      = l.map (fun _ => .TypeOnly "Term" "Term" none) := by
  induction l generalizing i with
  | nil => simp [frame_terms_lazy]
  | cons t ts ih => simp [frame_terms_lazy, ih]

/-- With no selected index, the frame value worker stubs every element. -/
theorem frame_values_lazy_none (term_ids : Finset Int) (ro : Bool) (i : Nat)
    (l : List UplcValue) :
    frame_values_lazy term_ids ro none i l = l.map get_value_type_only_new := by
  induction l generalizing i with
  | nil => simp [frame_values_lazy]
  | cons v vs ih => simp [frame_values_lazy, ih]

/- ===== Sample objects used by the witness theorems ===== -/

/-- Sample machine interface: construction always succeeds with the given
budget as the remaining budget and a trivial Done state, stepping returns
the machine unchanged with a Ready status. -/
def sampleIface : MachineInterface where
  newMachine := fun _ _ budget _ term =>
    .ok { ex_budget := budget, state := .Done term, traces := [], contexts := [] }
  stepMachine := fun m => (m, .Ready)

/-- Sample machine sitting in a Return state over a constant, with part of
its budget consumed. -/
def sampleMachine : ManualMachine where
  ex_budget := { mem := 500, cpu := 400 }
  state := .Return .NoFrame (.Con .Unit)
  traces := []
  contexts := []

/-- Sample session controller around sampleMachine with a ceiling budget of
1000/1000 and a declared budget of 800/700. -/
def sampleSession : SessionController where
  redeemer := "spend:0"
  session_id := "s0"
  machine := sampleMachine
  language := .PlutusV3
  real_budget := { mem := 800, cpu := 700 }
  image_budget := { mem := 1000, cpu := 1000 }
  script_hash := "deadbeef"
  last_error := none
  program_version := (1, 1, 0)
  entry_term := .Var "y" 9
  context := .mk
  cost_model := .mk
  term_ids := collect_term_ids (.Var "y" 9) ∅
  version := 3

/-- Sample decoder standing in for serde_json: always returns the array
with a field name and a numeric string. -/
def sampleDecode : String → Except String (List String) :=
  fun _ => .ok ["values", "3"]

/- ===== Claim theorems ===== -/

/-- C1: for every Term encoded against a static-id set, the plain encoder
term_to_either_term_or_id and the lazy encoder term_to_either_term_or_id_lazy
return the reference token Id with the term's id exactly when that id is in
the set, and return an inline Term encoding otherwise; in particular a term
none of whose possible origins is reachable from the entry term (its id is
the id of no subterm of the entry term) is always encoded inline against
the session set collected at load time. -/
theorem C1_encoder_id_iff_static (t : UplcTerm) (ids : Finset Int)
    (config : LazyLoadConfig) (entry : UplcTerm) :
    (term_to_either_term_or_id t ids = .Id (i32ofUsize t.uniqId) ↔
      i32ofUsize t.uniqId ∈ ids) ∧
    (i32ofUsize t.uniqId ∉ ids →
      term_to_either_term_or_id t ids = .Term (SerializableTerm.from_uplc_term t)) ∧
    (term_to_either_term_or_id_lazy t ids config = .Id (i32ofUsize t.uniqId) ↔
      i32ofUsize t.uniqId ∈ ids) ∧
    ((∀ s : UplcTerm, Subterm s entry → i32ofUsize s.uniqId ≠ i32ofUsize t.uniqId) →
      term_to_either_term_or_id t (collect_term_ids entry ∅)
          = .Term (SerializableTerm.from_uplc_term t) ∧
        ∃ lt : LazyLoadableTerm,
          term_to_either_term_or_id_lazy t (collect_term_ids entry ∅) config
            = .Term lt) := by
  have hmain : ∀ s : Finset Int,
      (term_to_either_term_or_id t s = .Id (i32ofUsize t.uniqId) ↔
        i32ofUsize t.uniqId ∈ s) ∧
      (i32ofUsize t.uniqId ∉ s →
        term_to_either_term_or_id t s = .Term (SerializableTerm.from_uplc_term t)) ∧
      (term_to_either_term_or_id_lazy t s config = .Id (i32ofUsize t.uniqId) ↔
        i32ofUsize t.uniqId ∈ s) := by
    intro s
    refine ⟨?_, ?_, ?_⟩
    · unfold term_to_either_term_or_id
      by_cases h : i32ofUsize t.uniqId ∈ s <;> simp [h]
    · intro h
      unfold term_to_either_term_or_id
      simp [h]
    · unfold term_to_either_term_or_id_lazy
      by_cases h : i32ofUsize t.uniqId ∈ s <;> simp [h]
  refine ⟨(hmain ids).1, (hmain ids).2.1, (hmain ids).2.2, fun hfar => ?_⟩
  have hnot : i32ofUsize t.uniqId ∉ collect_term_ids entry ∅ := by
    rw [collect_term_ids_eq]
    simp only [Finset.empty_union]
    rw [mem_reachableIds_iff]
    rintro ⟨s, hs, hid⟩
    exact hfar s hs hid
  refine ⟨(hmain _).2.1 hnot, ?_⟩
  unfold term_to_either_term_or_id_lazy
  simp [hnot]

/-- C1 witness: a Var with id 5 is encoded as the reference Id 5 against a
set containing 5; against the ids of an unrelated entry term it is encoded
inline by both encoders. -/
theorem C1_encoder_id_iff_static_witness :
    term_to_either_term_or_id (.Var "x" 5) ({5} : Finset Int)
        = .Id (i32ofUsize (UplcTerm.uniqId (.Var "x" 5))) ∧
    term_to_either_term_or_id (.Var "x" 5) (collect_term_ids (.Var "y" 9) ∅)
        = .Term (SerializableTerm.from_uplc_term (.Var "x" 5)) := by
  have h := C1_encoder_id_iff_static (.Var "x" 5) ({5} : Finset Int)
    ⟨[], false⟩ (.Var "y" 9)
  refine ⟨h.1.mpr (by decide), (h.2.2.2 ?_).1⟩
  intro s hs
  cases hs
  decide

/-- C2: evaluation at the failing input of the placeholder bug: projecting
the runtime value Delay (body Var x, id 5) with an empty static-id set,
full set to false and an empty path renders the body as the inline
placeholder Var 0 TODO (value.rs from_uplc_term_lazy is a stub), not as a
materialization of the body; the second conjunct shows the full serializer
materialization of the same body for contrast. -/
theorem C2_closure_body_is_placeholder :
    from_uplc_value_lazy ∅ ⟨[], false⟩ (.Delay (.Var "x" 5) [] 1)
      = .Delay (.Loaded (.Term (.Loaded (.Var 0 "TODO"))))
          (.Loaded (.mk [] none none none)) 1 ∧
    SerializableTermLazy.from_uplc_term_lazy ∅ ⟨[], false⟩ (.Var "x" 5)
      = .Var 5 "x" := by
  constructor
  · simp [from_uplc_value_lazy, should_load_field, advance_config,
      term_to_either_term_or_id_lazy, value_from_uplc_term_lazy,
      from_uplc_env_lazy, value_list_selective, load_vec_choice,
      i32ofUsize, UplcTerm.uniqId]
  · simp [SerializableTermLazy.from_uplc_term_lazy]
    decide

/-- C5: the budget query reports, per dimension, a spent value equal to the
ceiling (image) budget minus the machine's remaining budget (equivalently,
spent plus remaining equals the ceiling) and an available value equal to
the externally declared budget; whenever the machine has consumed any of a
dimension (its remaining budget is below the ceiling, as after a
budget-consuming step) the reported spent value is strictly positive while
available still equals the declared budget. -/
theorem C5_budget_query (s : SessionController) :
    s.get_budget_inner.ex_units_spent
        = s.image_budget.cpu - s.machine.ex_budget.cpu ∧
    s.get_budget_inner.memory_units_spent
        = s.image_budget.mem - s.machine.ex_budget.mem ∧
    s.get_budget_inner.ex_units_spent + s.machine.ex_budget.cpu
        = s.image_budget.cpu ∧
    s.get_budget_inner.memory_units_spent + s.machine.ex_budget.mem
        = s.image_budget.mem ∧
    s.get_budget_inner.ex_units_available = s.real_budget.cpu ∧
    s.get_budget_inner.memory_units_available = s.real_budget.mem ∧
    (s.machine.ex_budget.cpu < s.image_budget.cpu →
      0 < s.get_budget_inner.ex_units_spent) ∧
    (s.machine.ex_budget.mem < s.image_budget.mem →
      0 < s.get_budget_inner.memory_units_spent) := by
  have h1 : s.get_budget_inner.ex_units_spent
      = s.image_budget.cpu - s.machine.ex_budget.cpu := rfl
  have h2 : s.get_budget_inner.memory_units_spent
      = s.image_budget.mem - s.machine.ex_budget.mem := rfl
  refine ⟨h1, h2, by rw [h1]; omega, by rw [h2]; omega, rfl, rfl,
    fun h => by rw [h1]; omega, fun h => by rw [h2]; omega⟩

/-- C5 witness: on the sample session (remaining 400/500 against ceiling
1000/1000, declared 800/700) the spent values are positive and available
equals the declared budget. -/
theorem C5_budget_query_witness :
    0 < sampleSession.get_budget_inner.ex_units_spent ∧
    0 < sampleSession.get_budget_inner.memory_units_spent ∧
    sampleSession.get_budget_inner.ex_units_available
      = sampleSession.real_budget.cpu := by
  have h := C5_budget_query sampleSession
  exact ⟨h.2.2.2.2.2.2.1 (by decide), h.2.2.2.2.2.2.2 (by decide), h.2.2.2.2.1⟩

/-- C7: collecting the static-id set from an entry term is deterministic
(two runs produce equal sets), and the collected set contains exactly the
ids of the terms reachable from the entry term by walking its child fields
(Delay, Lambda and Force bodies, Apply function and argument, Constr
fields, Case scrutinee and branches) and no other ids. -/
theorem C7_collect_static_ids (entry : UplcTerm) :
    collect_term_ids entry ∅ = collect_term_ids entry ∅ ∧
    (∀ i : Int, i ∈ collect_term_ids entry (∅ : Finset Int) ↔
      ∃ s : UplcTerm, Subterm s entry ∧ i32ofUsize s.uniqId = i) := by
  refine ⟨rfl, fun i => ?_⟩
  rw [collect_term_ids_eq]
  simp only [Finset.empty_union]
  exact mem_reachableIds_iff entry i

/-- C7 witness: in the entry term Delay (Var x 3) 7 the id 3 of the nested
Var is collected. -/
theorem C7_collect_static_ids_witness :
    (3 : Int) ∈ collect_term_ids (.Delay (.Var "x" 3) 7) ∅ := by
  exact ((C7_collect_static_ids (.Delay (.Var "x" 3) 7)).2 3).mpr
    ⟨.Var "x" 3, .delay (.refl _), by decide⟩

/-- C8: the version counter starts at 0 at construction, is incremented by
exactly 1 on every call to step and on every call to reset (also when the
rebuild inside reset fails), and every query operation (machine state,
environment, context stack, budget, script, logs, current node id) leaves
the whole session state untouched. -/
theorem C8_version_counter (iface : MachineInterface) (s s0 : SessionController)
    (sh sid : String) (lang : Language) (prog : Program) (sc : ScriptContext)
    (cm : CostModel) (ub rb : ExBudget) (r : String) :
    (SessionController.new iface sh sid lang prog sc cm ub rb r = .ok s0 →
      s0.version = 0) ∧
    (s.step_inner iface).1.version = s.version + 1 ∧
    (s.reset iface).1.version = s.version + 1 ∧
    s.get_machine_state_op.1 = s ∧
    s.get_current_env_op.1 = s ∧
    s.get_machine_context_op.1 = s ∧
    s.get_budget_op.1 = s ∧
    s.get_script_op.1 = s ∧
    s.get_logs_op.1 = s ∧
    s.get_current_term_id_op.1 = s := by
  refine ⟨?_, rfl, ?_, rfl, rfl, rfl, rfl, rfl, rfl, rfl⟩
  · intro h
    simp only [SessionController.new] at h
    split at h
    · exact absurd h (by simp)
    · simp only [Except.ok.injEq] at h
      rw [← h]
  · simp only [SessionController.reset]
    split <;> rfl

/-- C8 witness: on the sample interface a freshly constructed session has
version 0, and on the sample session one step and one reset each bump the
version by one. -/
theorem C8_version_counter_witness :
    (SessionController.new sampleIface "h" "i" .PlutusV3 ⟨(1, 1, 0), .Var "y" 9⟩
        .mk .mk ⟨1000, 1000⟩ ⟨800, 700⟩ "spend:0").map
        (fun s0 => s0.version) = .ok 0 ∧
    (sampleSession.step_inner sampleIface).1.version = sampleSession.version + 1 := by
  constructor
  · have h := C8_version_counter sampleIface sampleSession
      { redeemer := "spend:0", session_id := "i", machine := ⟨⟨1000, 1000⟩, .Done (.Var "y" 9), [], []⟩,
        language := .PlutusV3, real_budget := ⟨800, 700⟩, image_budget := ⟨1000, 1000⟩,
        script_hash := "h", last_error := none, program_version := (1, 1, 0),
        entry_term := .Var "y" 9, context := .mk, cost_model := .mk,
        term_ids := collect_term_ids (.Var "y" 9) ∅, version := 0 }
      "h" "i" .PlutusV3 ⟨(1, 1, 0), .Var "y" 9⟩ .mk .mk ⟨1000, 1000⟩ ⟨800, 700⟩
      "spend:0"
    have hnew : SessionController.new sampleIface "h" "i" .PlutusV3
        ⟨(1, 1, 0), .Var "y" 9⟩ .mk .mk ⟨1000, 1000⟩ ⟨800, 700⟩ "spend:0"
        = .ok
          { redeemer := "spend:0", session_id := "i",
            machine := ⟨⟨1000, 1000⟩, .Done (.Var "y" 9), [], []⟩,
            language := .PlutusV3, real_budget := ⟨800, 700⟩,
            image_budget := ⟨1000, 1000⟩, script_hash := "h", last_error := none,
            program_version := (1, 1, 0), entry_term := .Var "y" 9, context := .mk,
            cost_model := .mk, term_ids := collect_term_ids (.Var "y" 9) ∅,
            version := 0 } := rfl
    rw [hnew]
    have h0 := h.1 hnew
    simp [Except.map, h0]
  · exact (C8_version_counter sampleIface sampleSession sampleSession "h" "i"
      .PlutusV3 ⟨(1, 1, 0), .Var "y" 9⟩ .mk .mk ⟨1000, 1000⟩ ⟨800, 700⟩
      "spend:0").2.1

/-- C9: parse_path treats an empty string, a whitespace-only string and the
literal two-character bracket string as the empty path; otherwise the
string goes through the external JSON-array-of-strings decoder, a decode
failure is reported as an invalid-path-format error, and on success every
element that parses as a usize becomes an index segment while every other
element becomes a named-field segment. -/
theorem C9_parse_path (decode : String → Except String (List String))
    (raw : String) (arr : List String) (e : String) :
    ((rust_trim_is_empty raw || raw == "[]") = true →
      parse_path decode raw = .ok []) ∧
    ((rust_trim_is_empty raw || raw == "[]") = false → decode raw = .ok arr →
      parse_path decode raw = .ok (arr.map (fun s =>
        match parse_usize s with
        | some index => .Index index
        | none => .Field s))) ∧
    ((rust_trim_is_empty raw || raw == "[]") = false → decode raw = .error e →
      parse_path decode raw = .error ("Invalid path format: " ++ e)) := by
  refine ⟨fun h => ?_, fun h hdec => ?_, fun h hdec => ?_⟩ <;>
    simp [parse_path, h] <;> simp [hdec]

/-- C9 witness: the whitespace-only string and the bracket literal parse to
the empty path, and a decoded array containing a field name and a numeric
string parses to a field segment followed by an index segment. -/
theorem C9_parse_path_witness :
    parse_path sampleDecode " " = .ok [] ∧
    parse_path sampleDecode "[]" = .ok [] ∧
    parse_path sampleDecode "[\"values\",\"3\"]"
      = .ok [.Field "values", .Index 3] := by
  refine ⟨(C9_parse_path sampleDecode " " [] "").1 (by decide),
    (C9_parse_path sampleDecode "[]" [] "").1 (by decide), ?_⟩
  have h := (C9_parse_path sampleDecode "[\"values\",\"3\"]" ["values", "3"] "").2.1
    (by decide) rfl
  rw [h]
  rfl

/-- C10: whenever the machine is not in a Compute state (for the lazy
environment query) or in none of the states carrying an environment —
Compute, or Return of a Lambda or Delay closure — (for the plain query),
the environment query succeeds with an environment whose values list is
empty, regardless of the requested path, and never returns an error. -/
theorem C10_env_empty_outside_compute (s : SessionController)
    (m : ManualMachine) (ids : Finset Int) (path : List PathSegment) (ro : Bool) :
    ((match s.machine.state with
      | .Compute _ _ _ => False
      | .Return _ (.Lambda _ _ _ _) => False
      | .Return _ (.Delay _ _ _) => False
      | _ => True) →
      s.get_current_env_inner = .mk []) ∧
    (m.state.isCompute = false →
      get_current_env_lazy m ids path ro = .ok (.envPayload (.mk [] none none none))) := by
  constructor
  · intro h
    unfold SessionController.get_current_env_inner
    match hs : s.machine.state with
    | .Compute _ _ _ => rw [hs] at h; exact absurd h (by simp)
    | .Return _ (.Lambda _ _ _ _) => rw [hs] at h; exact absurd h (by simp)
    | .Return _ (.Delay _ _ _) => rw [hs] at h; exact absurd h (by simp)
    | .Return _ (.Con _) => rfl
    | .Return _ (.Builtin _ _ _) => rfl
    | .Return _ (.Constr _ _ _) => rfl
    | .Done _ => rfl
  · intro h
    unfold get_current_env_lazy
    match hs : m.state with
    | .Compute _ _ _ => rw [hs] at h; simp [UplcMachineState.isCompute] at h
    | .Return _ _ => rfl
    | .Done _ => rfl

/-- C10 witness: on the sample machine (a Return state holding a constant)
the plain query yields the empty environment and the lazy query succeeds
with an empty values list even for a non-empty path. -/
theorem C10_env_empty_outside_compute_witness :
    sampleSession.get_current_env_inner = .mk [] ∧
    get_current_env_lazy sampleMachine ∅ [.Field "values", .Index 0] true
      = .ok (.envPayload (.mk [] none none none)) := by
  have h := C10_env_empty_outside_compute sampleSession sampleMachine ∅
    [.Field "values", .Index 0] true
  exact ⟨h.1 (by trivial), h.2 (by rfl)⟩

/-- Hex payload of a lazily encoded G1 constant, when the shape is a G1
leaf. -/
def lazy_g1_hex : SerializableConstantLazy → Option String
  | .Bls12_381G1Element s => some s
  | _ => none

/-- C6 counterexample: the lazy encoding of a G1 element produces a hex
string of 96 characters (48 bytes, the compressed size), not the 192
characters (96 bytes, the canonical uncompressed size) the claim requires
of the lazy encoding as well. -/
theorem C6_counterexample :
    (lazy_g1_hex (from_uplc_constant_lazy ∅ ⟨[], false⟩
        (.Bls12_381G1Element ⟨[]⟩))).map String.length = some 96 ∧
    ¬ (96 = 2 * BLS12_381_G1_SERIALIZED_SIZE) := by
  constructor
  · have h : from_uplc_constant_lazy ∅ ⟨[], false⟩ (.Bls12_381G1Element ⟨[]⟩)
        = .Bls12_381G1Element (serialize_bls_g1_element_compressed ⟨[]⟩) := by
      simp [from_uplc_constant_lazy]
    rw [h]
    simp [lazy_g1_hex, serialize_bls_g1_element_compressed, hexEncode_length,
      fixBuffer_length, BLS12_381_G1_COMPRESSED_SIZE]
  · decide

/-- C6 (amended): the plain structural encoding of curve-group constants
produces fixed-width hex strings of the canonical uncompressed lengths (96
bytes for G1, 192 for G2, 576 for a pairing result, so hex strings of 192,
384 and 1152 characters); the lazy/partial encoding instead uses the
compressed serializations for the curve points (48 bytes for G1, 96 for
G2) and the same 576-byte serialization for the pairing result. -/
theorem C6_bls_serialization_widths (e1 : BlstP1) (e2 : BlstP2) (e3 : BlstFp12)
    (ids : Finset Int) (config : LazyLoadConfig) :
    SerializableConstant.from_uplc_constant (.Bls12_381G1Element e1)
      = .Bls12_381G1Element (serialize_bls_g1_element_full e1) ∧
    (serialize_bls_g1_element_full e1).length = 2 * 96 ∧
    SerializableConstant.from_uplc_constant (.Bls12_381G2Element e2)
      = .Bls12_381G2Element (serialize_bls_g2_element_full e2) ∧
    (serialize_bls_g2_element_full e2).length = 2 * 192 ∧
    SerializableConstant.from_uplc_constant (.Bls12_381MlResult e3)
      = .Bls12_381MlResult (serialize_bls_fp12_element e3) ∧
    (serialize_bls_fp12_element e3).length = 2 * 576 ∧
    from_uplc_constant_lazy ids config (.Bls12_381G1Element e1)
      = .Bls12_381G1Element (serialize_bls_g1_element_compressed e1) ∧
    (serialize_bls_g1_element_compressed e1).length = 2 * 48 ∧
    from_uplc_constant_lazy ids config (.Bls12_381G2Element e2)
      = .Bls12_381G2Element (serialize_bls_g2_element_compressed e2) ∧
    (serialize_bls_g2_element_compressed e2).length = 2 * 96 ∧
    from_uplc_constant_lazy ids config (.Bls12_381MlResult e3)
      = .Bls12_381MlResult (hexEncode (fixBuffer 576 e3.bytes)) ∧
    (hexEncode (fixBuffer 576 e3.bytes)).length = 2 * 576 := by
  refine ⟨by simp [SerializableConstant.from_uplc_constant], ?_,
    by simp [SerializableConstant.from_uplc_constant], ?_,
    by simp [SerializableConstant.from_uplc_constant], ?_,
    by simp [from_uplc_constant_lazy], ?_,
    by simp [from_uplc_constant_lazy], ?_,
    by simp [from_uplc_constant_lazy], ?_⟩ <;>
    simp [serialize_bls_g1_element_full, serialize_bls_g2_element_full,
      serialize_bls_fp12_element, serialize_bls_g1_element_compressed,
      serialize_bls_g2_element_compressed, hexEncode_length, fixBuffer_length,
      BLS12_381_G1_SERIALIZED_SIZE, BLS12_381_G2_SERIALIZED_SIZE,
      BLS12_381_FP12_SIZE, BLS12_381_G1_COMPRESSED_SIZE,
      BLS12_381_G2_COMPRESSED_SIZE]

/-- Fields list of a lazily encoded constructor value, when the shape is a
Constr. -/
def lazy_constr_fields : SerializableValueLazy → Option (List LazyLoadableValue)
  | .Constr _ fields _ => some fields
  | _ => none

/-- C3 counterexample: a constructor value with 11 fields projected with
full = true keeps all 11 fields inline — nothing is omitted beyond
min(10, length) = 10 and no truncation record is produced, contradicting
the claim for the constructor-fields collection. -/
theorem C3_counterexample :
    (lazy_constr_fields (from_uplc_value_lazy ∅ ⟨[], true⟩
        (.Constr 0 (List.replicate 11 (.Con .Unit)) 7))).map List.length
      = some 11 := by
  have h : from_uplc_value_lazy ∅ ⟨[], true⟩
      (.Constr 0 (List.replicate 11 (.Con .Unit)) 7)
      = .Constr 0 (value_list_full ∅ (List.replicate 11 (.Con .Unit)))
          (i32ofUsize 7) := by
    simp [from_uplc_value_lazy]
  rw [h, value_list_full_map]
  simp [lazy_constr_fields]

/-- C3 (amended): with full = true, only an Environment's values collection
is capped: it contains inline encodings of exactly the first
min(10, length) elements and carries displayed_count, total_count and a
truncation message exactly when its length exceeds 10. A constructor
value's fields and a builtin's accumulated arguments are all loaded inline
with no cap and no truncation metadata, and a continuation frame's stacked
terms and values are rendered as type-stubs (the frame encoder runs them
through the path selection even when full is set). -/
theorem C3_full_loading_caps (ids : Finset Int) (config : LazyLoadConfig)
    (hfull : config.return_full_object = true) :
    (∀ env : List UplcValue,
      (from_uplc_env_lazy ids config env).values
          = (env.take (min MAX_FULL_OBJECT_ELEMENTS env.length)).map
              (fun v => .Loaded (from_uplc_value_lazy ids ⟨[], true⟩ v)) ∧
      (from_uplc_env_lazy ids config env).values.length
          = min MAX_FULL_OBJECT_ELEMENTS env.length ∧
      (MAX_FULL_OBJECT_ELEMENTS < env.length →
        (from_uplc_env_lazy ids config env).displayed_count
            = some MAX_FULL_OBJECT_ELEMENTS ∧
        (from_uplc_env_lazy ids config env).total_count = some env.length ∧
        (from_uplc_env_lazy ids config env).truncation_message
          = some ("Showing " ++ toString MAX_FULL_OBJECT_ELEMENTS ++ " of "
              ++ toString env.length
              ++ " elements. Use the left panel tree view to explore specific elements.")) ∧
      (env.length ≤ MAX_FULL_OBJECT_ELEMENTS →
        (from_uplc_env_lazy ids config env).displayed_count = none ∧
        (from_uplc_env_lazy ids config env).total_count = none ∧
        (from_uplc_env_lazy ids config env).truncation_message = none)) ∧
    (∀ (tag : Nat) (fields : List UplcValue) (term_id : Nat),
      from_uplc_value_lazy ids config (.Constr tag fields term_id)
        = .Constr tag
            (fields.map (fun v => .Loaded (from_uplc_value_lazy ids ⟨[], true⟩ v)))
            (i32ofUsize term_id)) ∧
    (∀ rt : UplcBuiltinRuntime,
      (from_uplc_runtime_lazy ids config rt).args
        = rt.args.map (fun v => .Loaded (from_uplc_value_lazy ids ⟨[], true⟩ v))) ∧
    (config.path = [] →
      ∀ (env : List UplcValue) (tag : Nat) (terms : List UplcTerm)
        (values : List UplcValue) (term_id : Nat),
        from_uplc_context_lazy ids config (.FrameConstr env tag terms values term_id)
          = .FrameConstr (.Loaded (from_uplc_env_lazy ids ⟨[], true⟩ env)) tag
              (terms.map (fun _ => .TypeOnly "Term" "Term" none))
              (values.map get_value_type_only_new) (i32ofUsize term_id) ∧
        from_uplc_context_lazy ids config (.FrameCases env terms)
          = .FrameCases (.Loaded (from_uplc_env_lazy ids ⟨[], true⟩ env))
              (terms.map (fun _ => .TypeOnly "Term" "Term" none))) := by
  obtain ⟨path, ro⟩ := config
  simp only at hfull
  subst hfull
  refine ⟨fun env => ?_, fun tag fields term_id => ?_, fun rt => ?_,
    fun hpath env tag terms values term_id => ?_⟩
  · have hunfold : from_uplc_env_lazy ids ⟨path, true⟩ env
        = if env.length > MAX_FULL_OBJECT_ELEMENTS then
            SerializableEnvLazy.mk
              (value_list_full_take ids MAX_FULL_OBJECT_ELEMENTS env)
              (some MAX_FULL_OBJECT_ELEMENTS) (some env.length)
              (some ("Showing " ++ toString MAX_FULL_OBJECT_ELEMENTS ++ " of "
                ++ toString env.length
                ++ " elements. Use the left panel tree view to explore specific elements."))
          else
            SerializableEnvLazy.mk (value_list_full_take ids env.length env)
              none none none := by
      simp only [from_uplc_env_lazy]
      split <;> simp_all
    by_cases h : MAX_FULL_OBJECT_ELEMENTS < env.length
    · have hmin : min MAX_FULL_OBJECT_ELEMENTS env.length
          = MAX_FULL_OBJECT_ELEMENTS := Nat.min_eq_left (Nat.le_of_lt h)
      rw [hunfold, if_pos h]
      refine ⟨?_, ?_, fun _ => ⟨rfl, rfl, rfl⟩, fun hle => absurd h (by omega)⟩
      · rw [value_list_full_take_map, hmin]
        rfl
      · show (value_list_full_take ids MAX_FULL_OBJECT_ELEMENTS env).length = _
        rw [value_list_full_take_map, List.length_map, List.length_take, hmin]
    · have hle : env.length ≤ MAX_FULL_OBJECT_ELEMENTS := by omega
      have hmin : min MAX_FULL_OBJECT_ELEMENTS env.length = env.length :=
        Nat.min_eq_right hle
      rw [hunfold, if_neg h]
      refine ⟨?_, ?_, fun hlt => absurd hlt h, fun _ => ⟨rfl, rfl, rfl⟩⟩
      · rw [value_list_full_take_map, hmin]
        rfl
      · show (value_list_full_take ids env.length env).length = _
        rw [value_list_full_take_map, List.length_map, List.length_take, hmin]
        omega
  · simp only [from_uplc_value_lazy]
    rw [value_list_full_map]
    simp
  · obtain ⟨args, fn, forces⟩ := rt
    simp only [from_uplc_runtime_lazy]
    rw [value_list_full_map]
    simp [UplcBuiltinRuntime.args, SerializableBuiltinRuntimeLazy.args]
  · subst hpath
    constructor
    · simp only [from_uplc_context_lazy]
      have hsel : load_vec_choice ([] : List PathSegment) "terms" = none := rfl
      have hsel2 : load_vec_choice ([] : List PathSegment) "values" = none := rfl
      rw [hsel, hsel2, frame_terms_lazy_none, frame_values_lazy_none]
      simp [should_load_field]
    · simp only [from_uplc_context_lazy]
      have hsel : load_vec_choice ([] : List PathSegment) "terms" = none := rfl
      rw [hsel, frame_terms_lazy_none]
      simp [should_load_field]

/-- C3 witness: an 11-element environment loaded with full = true shows 10
elements with the truncation counters set, and a frame with one stacked
term renders that term as a type-stub. -/
theorem C3_full_loading_caps_witness :
    (from_uplc_env_lazy ∅ ⟨[], true⟩
        (List.replicate 11 (.Con .Unit))).values.length
      = min MAX_FULL_OBJECT_ELEMENTS 11 ∧
    (from_uplc_env_lazy ∅ ⟨[], true⟩
        (List.replicate 11 (.Con .Unit))).displayed_count
      = some MAX_FULL_OBJECT_ELEMENTS ∧
    from_uplc_context_lazy ∅ ⟨[], true⟩ (.FrameCases [] [.Var "x" 1])
      = .FrameCases (.Loaded (from_uplc_env_lazy ∅ ⟨[], true⟩ []))
          [.TypeOnly "Term" "Term" none] := by
  have h := C3_full_loading_caps ∅ ⟨[], true⟩ rfl
  refine ⟨?_, ?_, ?_⟩
  · have := (h.1 (List.replicate 11 (.Con .Unit))).2.1
    simpa using this
  · exact ((h.1 (List.replicate 11 (.Con .Unit))).2.2.1 (by decide)).1
  · have := (h.2.2.2 rfl [] 0 [.Var "x" 1] [] 0).2
    simpa using this

/-- Decision whether a path segment names a navigable child of a term node
in navigate_to_term_lazy: the guarded match arms of the source, collected
as a boolean. -/
def termHeadMatches : UplcTerm → PathSegment → Bool
  | .Delay _ _, .Field f => f == "term"
  | .Lambda _ _ _, .Field f => f == "body"
  | .Apply _ _ _, .Field f => f == "function" || f == "argument"
  | .Force _ _, .Field f => f == "term"
  | .Constr _ _ _, .Field f => f == "fields"
  | .Case _ _ _, .Field f => f == "constr" || f == "branches"
  | .Constant _ _, .Field f => f == "constant"
  | _, _ => false

/-- Terminal constants of navigate_to_constant_lazy: everything except the
two compound constants ProtoList and ProtoPair. -/
def isTerminalConstant : UplcConstant → Bool
  | .ProtoList _ _ => false
  | .ProtoPair _ _ _ _ => false
  | _ => true

/-- Head-is-an-index discriminator for a path. -/
def headIsIndex : List PathSegment → Bool
  | .Index _ :: _ => true
  | _ => false

/-- C4 counterexample: navigating the terminal constant Integer 1 with the
head segment bogus, which names no field of the node, returns Found with
the constant itself instead of the InvalidPath result the claim requires. -/
theorem C4_counterexample :
    navigate_to_constant_lazy ∅ false (.Integer 1) [.Field "bogus"]
      = .Found (.Integer "1") ∧
    (navigate_to_constant_lazy ∅ false (.Integer 1) [.Field "bogus"]).isInvalidPath
      = false := by
  have h : navigate_to_constant_lazy ∅ false (.Integer 1) [.Field "bogus"]
      = .Found (.Integer "1") := by
    simp [navigate_to_constant_lazy, from_uplc_constant_lazy]
    rfl
  exact ⟨h, by rw [h]; rfl⟩

/-- C4 (amended): navigation is a pure read (the navigators are plain
functions of their inputs), and a structurally invalid path yields an
InvalidPath result with a description — a head segment matching no child
of a term node, an out-of-bounds index into constructor fields, case
branches, a constant list, an environment or builtin args (the message
carrying the offending index), or a collection field not followed by an
index — with one exception the counterexample forces: a terminal constant
(anything but ProtoList and ProtoPair) reached with a non-empty remaining
path returns Found with the constant's own projection instead of
InvalidPath. -/
theorem C4_navigation_invalid_paths (ids : Finset Int) (ro : Bool) :
    (∀ (t : UplcTerm) (seg : PathSegment) (rest : List PathSegment),
      termHeadMatches t seg = false →
      navigate_to_term_lazy ids ro t (seg :: rest)
        = .InvalidPath ("Cannot navigate path " ++ pathDebug (seg :: rest)
            ++ " in term type")) ∧
    (∀ (tag : Nat) (fields : List UplcTerm) (u idx : Nat)
        (rest : List PathSegment), fields.length ≤ idx →
      navigate_to_term_lazy ids ro (.Constr tag fields u)
          (.Field "fields" :: .Index idx :: rest)
        = .InvalidPath ("Index " ++ toString idx ++ " out of bounds in fields")) ∧
    (∀ (c : UplcTerm) (branches : List UplcTerm) (u idx : Nat)
        (rest : List PathSegment), branches.length ≤ idx →
      navigate_to_term_lazy ids ro (.Case c branches u)
          (.Field "branches" :: .Index idx :: rest)
        = .InvalidPath ("Index " ++ toString idx ++ " out of bounds in branches")) ∧
    (∀ (tag : Nat) (fields : List UplcTerm) (u : Nat) (rest : List PathSegment),
      headIsIndex rest = false →
      navigate_to_term_lazy ids ro (.Constr tag fields u) (.Field "fields" :: rest)
        = .InvalidPath "Expected index after fields") ∧
    (∀ (c : UplcTerm) (branches : List UplcTerm) (u : Nat)
        (rest : List PathSegment), headIsIndex rest = false →
      navigate_to_term_lazy ids ro (.Case c branches u) (.Field "branches" :: rest)
        = .InvalidPath "Expected index after branches") ∧
    (∀ (ty : UplcType) (values : List UplcConstant) (idx : Nat)
        (rest : List PathSegment), values.length ≤ idx →
      navigate_to_constant_lazy ids ro (.ProtoList ty values)
          (.Field "values" :: .Index idx :: rest)
        = .InvalidPath ("Index " ++ toString idx ++ " out of bounds in constant list")) ∧
    (∀ (ty : UplcType) (values : List UplcConstant) (rest : List PathSegment),
      headIsIndex rest = false →
      navigate_to_constant_lazy ids ro (.ProtoList ty values)
          (.Field "values" :: rest)
        = .InvalidPath "Expected index after values") ∧
    (∀ (c : UplcConstant) (seg : PathSegment) (rest : List PathSegment),
      isTerminalConstant c = true →
      navigate_to_constant_lazy ids ro c (seg :: rest)
        = .Found (from_uplc_constant_lazy ids ⟨[], ro⟩ c)) ∧
    (∀ (env : List UplcValue) (idx : Nat) (rest : List PathSegment),
      env.length ≤ idx →
      navigate_to_env ids ro env (.Field "values" :: .Index idx :: rest)
          = .InvalidPath ("Index " ++ toString idx ++ " out of bounds in env") ∧
      navigate_to_env ids ro env (.Index idx :: rest)
          = .InvalidPath ("Index " ++ toString idx ++ " out of bounds in env")) ∧
    (∀ (args : List UplcValue) (fn : DefaultFunction) (forces idx : Nat)
        (rest : List PathSegment), args.length ≤ idx →
      navigate_to_runtime ids ro (.mk args fn forces)
          (.Field "args" :: .Index idx :: rest)
        = .InvalidPath ("Index " ++ toString idx ++ " out of bounds in runtime args")) := by
  refine ⟨?_, ?_, ?_, ?_, ?_, ?_, ?_, ?_, ?_, ?_⟩
  · intro t seg rest h
    cases t <;> cases seg <;>
      (rw [navigate_to_term_lazy.eq_def] ;
        try simp_all [termHeadMatches, Bool.or_eq_false_iff])
  · intro tag fields u idx rest h
    have hnone : fields.get? idx = none := List.get?_eq_none.mpr h
    rw [navigate_to_term_lazy.eq_def]
    simp only [reduceIte]
    split
    next field heq => rw [hnone] at heq; exact absurd heq (by simp)
    next heq => rfl
  · intro c branches u idx rest h
    have hnone : branches.get? idx = none := List.get?_eq_none.mpr h
    rw [navigate_to_term_lazy.eq_def]
    simp only [String.reduceEq, reduceIte]
    split
    next branch heq => rw [hnone] at heq; exact absurd heq (by simp)
    next heq => rfl
  · intro tag fields u rest h
    cases rest with
    | nil => simp [navigate_to_term_lazy]
    | cons seg rest2 =>
      cases seg with
      | Field f => simp [navigate_to_term_lazy]
      | Index i => simp [headIsIndex] at h
  · intro c branches u rest h
    cases rest with
    | nil => simp [navigate_to_term_lazy]
    | cons seg rest2 =>
      cases seg with
      | Field f => simp [navigate_to_term_lazy]
      | Index i => simp [headIsIndex] at h
  · intro ty values idx rest h
    have hnone : values.get? idx = none := List.get?_eq_none.mpr h
    rw [navigate_to_constant_lazy.eq_def]
    simp only [reduceIte]
    split
    next v heq => rw [hnone] at heq; exact absurd heq (by simp)
    next heq => rfl
  · intro ty values rest h
    cases rest with
    | nil => simp [navigate_to_constant_lazy]
    | cons seg rest2 =>
      cases seg with
      | Field f => simp [navigate_to_constant_lazy]
      | Index i => simp [headIsIndex] at h
  · intro c seg rest h
    cases c <;> simp_all [navigate_to_constant_lazy, isTerminalConstant]
  · intro env idx rest h
    have hnone : env.get? idx = none := List.get?_eq_none.mpr h
    constructor
    · rw [navigate_to_env.eq_def]
      simp only [reduceIte]
      split
      next v heq => rw [hnone] at heq; exact absurd heq (by simp)
      next heq => rfl
    · rw [navigate_to_env.eq_def]
      simp only [reduceIte]
      split
      next v heq => rw [hnone] at heq; exact absurd heq (by simp)
      next heq => rfl
  · intro args fn forces idx rest h
    have hnone : args.get? idx = none := List.get?_eq_none.mpr h
    rw [navigate_to_runtime.eq_def]
    simp only [reduceIte]
    split
    next arg heq => rw [hnone] at heq; exact absurd heq (by simp)
    next heq => rfl

/-- C4 witness: a term field named term on an Error node, an out-of-bounds
constructor-field index, and an index segment on a terminal Bool constant,
each behaving per the amended claim. -/
theorem C4_navigation_invalid_paths_witness :
    navigate_to_term_lazy ∅ false (.Error 4) [.Field "term"]
      = .InvalidPath ("Cannot navigate path " ++ pathDebug [.Field "term"]
          ++ " in term type") ∧
    navigate_to_term_lazy ∅ false (.Constr 0 [] 1) [.Field "fields", .Index 2]
      = .InvalidPath ("Index " ++ toString 2 ++ " out of bounds in fields") ∧
    navigate_to_constant_lazy ∅ false (.Bool true) [.Index 0]
      = .Found (from_uplc_constant_lazy ∅ ⟨[], false⟩ (.Bool true)) := by
  have h := C4_navigation_invalid_paths ∅ false
  exact ⟨h.1 (.Error 4) (.Field "term") [] (by decide),
    h.2.1 0 [] 1 2 [] (by decide),
    h.2.2.2.2.2.2.2.1 (.Bool true) (.Index 0) [] (by decide)⟩

end DeUplc
